import Mathlib

/-!
Verification of the chained-backfill pipeline of the ai-daily-brief-highlights
repository, against its natural-language specification.

The development shallowly embeds the two background jobs:

* the summarization job, from netlify/functions/summarize-episodes-background.ts
  - transcript classification, candidate selection, source retrieval with
    deduplication, highlights validation, per-candidate failure isolation and
    the depth-bounded self-chaining controller;
* the ingestion job, from the companion background ingestion function
  - the depth-0 sentinel reset phase, RSS metadata upsert, transcription
    candidates, per-candidate failure isolation and the same chain controller.

Modelling conventions:
* Database rows become Lean structures; nullable columns become Option fields
  and JSON columns become a small Json inductive.
* The record store is a list of rows; the query ORDER BY published_at DESC
  LIMIT 30 is modelled by an insertion sort on the published_at key followed
  by List.take.
* External services (topic-extraction model call, Tavily search, highlights
  model call, audio transcription) are oracles: functions into Except String,
  supplied as parameters. A thrown JS exception is an Except.error value;
  the try/catch blocks of the source become matches on those values.
* JavaScript string primitives used by the source are modelled on the
  character list of a Lean String: slice as strTake, startsWith as
  strStartsWith, the emptiness of trim as isBlank, trim as strTrim.
* The fire-and-forget continuation fetch is modelled as an emitted message:
  the ChainOutcome.fired field carries the depth of the continuation that the
  run requested, and the run's own response value is produced irrespective of
  that continuation, which models returning without awaiting it.
-/

set_option maxRecDepth 8000

/-! ## JavaScript string primitives, modelled on the character list -/

/-- Model of JS s.slice(0, n) : the first n characters of s. -/
def strTake (s : String) (n : Nat) : String := String.mk (s.data.take n)

/-- Model of JS s.startsWith(p). -/
def strStartsWith (s p : String) : Bool := p.data.isPrefixOf s.data

/-- Model of JS s.trim() being empty: every character is whitespace. -/
def isBlank (s : String) : Bool := s.data.all Char.isWhitespace

/-- Model of JS s.trim(): drop whitespace from both ends. -/
def strTrim (s : String) : String :=
  String.mk (((s.data.dropWhile Char.isWhitespace).reverse.dropWhile Char.isWhitespace).reverse)

theorem strTake_length_le (s : String) (n : Nat) : (strTake s n).length ≤ n := by
  show (s.data.take n).length ≤ n
  rw [List.length_take]
  exact min_le_left _ _

/-! ## JSON values stored in the episodes table -/

/-- A JSON value, as stored in the highlights and sources columns and as
produced by parsing model output. An absent / SQL NULL column is Json.null. -/
inductive Json where
  | null
  | bool (b : Bool)
  | num (n : Int)
  | str (s : String)
  | arr (elems : List Json)
  | obj (fields : List (String × Json))

/-- Whether the value is JSON null (models a JS loose equality test v == null). -/
def Json.isNull : Json → Bool
  | Json.null => true
  | _ => false

/-- Model of JS property access h[k] on a parsed JSON value: a lookup on an
object's fields, undefined (none) on every other value. -/
def getField : Json → String → Option Json
  | Json.obj kvs, k => kvs.lookup k
  | _, _ => none

/-! ## Shared helpers of the summarization function -/

/-- From the source: isRealTranscript. The transcript is real when it is a
present, non-falsy string that is not the processing sentinel, does not start
with the error sentinel prefix, and has more than 2000 characters. The JS
falsiness test !t is the emptiness test on a present string. -/
def isRealTranscript (t : Option String) : Bool :=
  match t with
  | none => false
  | some s =>
    if s = "" then false
    else if s = "__PROCESSING_TRANSCRIPT__" then false
    else if strStartsWith s "__ERROR__" then false
    else decide (2000 < s.length)

/-- From the source: isEmptyObject. True exactly for an object with no keys. -/
def isEmptyObject : Json → Bool
  | Json.obj kvs => kvs.isEmpty
  | _ => false

/-- From the source: isEmptySources. True for null and for a zero-length array. -/
def isEmptySources : Json → Bool
  | Json.null => true
  | Json.arr xs => xs.isEmpty
  | _ => false

/-- From the source handler: highlights are missing when the column is null or
an empty object. -/
def missingHighlights (h : Json) : Bool := h.isNull || isEmptyObject h

/-! ## The chain controller -/

/-- Outcome of the chain-controller block at the end of a run: the remaining
candidate count it reports, and the depth of the continuation it fired, if
any. The continuation is fire-and-forget: nothing of the run's response
depends on its result. -/
structure ChainOutcome where
  remaining : Nat
  fired : Option Nat
deriving DecidableEq

/-- From the source handler tail: remaining = total candidates minus the batch
taken this run; a continuation at depth+1 is fired when work remains, the
depth budget is not exhausted, and a base URL is configured. -/
def chainControl (maxDepth total batchLen depth : Nat) (base : Option String) : ChainOutcome :=
  if 0 < total - batchLen ∧ depth < maxDepth then
    match base with
    | some _ => { remaining := total - batchLen, fired := some (depth + 1) }
    | none => { remaining := total - batchLen, fired := none }
  else { remaining := total - batchLen, fired := none }

theorem chainControl_remaining (maxDepth total batchLen depth : Nat) (base : Option String) :
    (chainControl maxDepth total batchLen depth base).remaining = total - batchLen := by
  cases base <;> unfold chainControl <;> split <;> rfl

theorem chainControl_fired_pos (maxDepth total batchLen depth : Nat) (b : String)
    (h1 : 0 < total - batchLen) (h2 : depth < maxDepth) :
    (chainControl maxDepth total batchLen depth (some b)).fired = some (depth + 1) := by
  unfold chainControl
  rw [if_pos ⟨h1, h2⟩]

theorem chainControl_fired_exhausted (maxDepth total batchLen depth : Nat) (base : Option String)
    (h2 : maxDepth ≤ depth) :
    (chainControl maxDepth total batchLen depth base).fired = none := by
  cases base <;> unfold chainControl <;> rw [if_neg (by omega)]

theorem chainControl_fired_done (maxDepth total batchLen depth : Nat) (base : Option String)
    (h1 : total - batchLen = 0) :
    (chainControl maxDepth total batchLen depth base).fired = none := by
  cases base <;> unfold chainControl <;> rw [if_neg (by omega)]

theorem chainControl_fired_some_iff (maxDepth total batchLen depth : Nat) (b : String) :
    (chainControl maxDepth total batchLen depth (some b)).fired = some (depth + 1) ↔
      (0 < total - batchLen ∧ depth < maxDepth) := by
  unfold chainControl
  split
  · simp_all
  · simp_all

theorem chainControl_fired_lt (maxDepth total batchLen depth : Nat) (base : Option String)
    (h : (chainControl maxDepth total batchLen depth base).fired.isSome) :
    depth < maxDepth := by
  revert h
  cases base <;> unfold chainControl <;> split <;> simp_all

/-- Iterated chain controller over an ideal backlog: a run at the given depth
takes min C B candidates of the C outstanding ones, and continues exactly when
chainControl fires a continuation. Returns the number of continuations fired
over the whole chain and the remaining count reported by the final run. -/
def chainRuns (maxDepth B C depth : Nat) : Nat × Nat :=
  if h : (chainControl maxDepth C (min C B) depth (some "")).fired = some (depth + 1) then
    ((chainRuns maxDepth B (C - min C B) (depth + 1)).1 + 1,
     (chainRuns maxDepth B (C - min C B) (depth + 1)).2)
  else (0, C - min C B)
termination_by maxDepth - depth
decreasing_by
  have := chainControl_fired_lt maxDepth C (min C B) depth (some "") (by rw [h]; rfl)
  omega

theorem ceil_div_le_one (B C : Nat) (hB : 0 < B) (hCB : C ≤ B) : (C + B - 1) / B ≤ 1 := by
  have h2 : (C + B - 1) / B < 2 := (Nat.div_lt_iff_lt_mul hB).mpr (by omega)
  omega

theorem ceil_div_gt_one (B C : Nat) (hB : 0 < B) (h : 1 < (C + B - 1) / B) : B < C := by
  by_contra hc
  have := ceil_div_le_one B C hB (by omega)
  omega

theorem ceil_div_step (B C : Nat) (hB : 0 < B) (hBC : B < C) :
    (C + B - 1) / B = (C - B + B - 1) / B + 1 := by
  have h := Nat.div_eq_sub_div hB (a := C + B - 1) (by omega)
  have he : C + B - 1 - B = C - B + B - 1 := by omega
  rw [he] at h
  exact h

/-- The number of continuations fired from the given depth over a backlog of C
candidates with positive batch size B is the number of follow-up runs an ideal
drain needs, capped at the available depth budget. -/
theorem chainRuns_continuations (B maxDepth : Nat) (hB : 0 < B) :
    ∀ k C depth, maxDepth - depth = k →
      (chainRuns maxDepth B C depth).1 = min ((C + B - 1) / B - 1) k := by
  intro k
  induction k with
  | zero =>
    intro C depth hk
    unfold chainRuns
    rw [dif_neg (by rw [chainControl_fired_exhausted _ _ _ _ _ (by omega)]; simp)]
    simp
  | succ k ih =>
    intro C depth hk
    by_cases hrem : 0 < C - min C B
    · have hCB : B < C := by
        rcases Nat.le_total C B with hcb | hcb
        · rw [Nat.min_eq_left hcb] at hrem; omega
        · rw [Nat.min_eq_right hcb] at hrem; omega
      have hmin : min C B = B := Nat.min_eq_right (Nat.le_of_lt hCB)
      unfold chainRuns
      rw [dif_pos ((chainControl_fired_some_iff _ _ _ _ _).mpr ⟨hrem, by omega⟩)]
      simp only [hmin]
      rw [ih (C - B) (depth + 1) (by omega)]
      have h1 : (C + B - 1) / B = (C - B + B - 1) / B + 1 := ceil_div_step B C hB hCB
      have hX1 : 1 ≤ (C - B + B - 1) / B := by
        rw [Nat.one_le_div_iff hB]
        omega
      rcases Nat.le_total ((C - B + B - 1) / B - 1) k with hle | hle
      · have e1 : min ((C - B + B - 1) / B - 1) k = (C - B + B - 1) / B - 1 :=
          Nat.min_eq_left hle
        have e2 : min ((C + B - 1) / B - 1) (k + 1) = (C + B - 1) / B - 1 :=
          Nat.min_eq_left (by omega)
        rw [e1, e2]
        omega
      · have e1 : min ((C - B + B - 1) / B - 1) k = k := Nat.min_eq_right hle
        have e2 : min ((C + B - 1) / B - 1) (k + 1) = k + 1 := Nat.min_eq_right (by omega)
        rw [e1, e2]
    · have hCB : C ≤ B := by
        by_contra hc
        rw [Nat.min_eq_right (by omega : B ≤ C)] at hrem
        omega
      have hle : (C + B - 1) / B ≤ 1 := ceil_div_le_one B C hB hCB
      unfold chainRuns
      rw [dif_neg (by
        rw [(chainControl_fired_some_iff _ _ _ _ _)]
        exact fun hc => hrem hc.1)]
      show 0 = min ((C + B - 1) / B - 1) (k + 1)
      rw [Nat.min_eq_left (by omega)]
      omega

/-- When the depth budget cannot cover the backlog, the final run of the chain
reports a positive remaining count. -/
theorem chainRuns_remaining_pos (B maxDepth : Nat) (hB : 0 < B) :
    ∀ k C depth, maxDepth - depth = k → maxDepth - depth < (C + B - 1) / B - 1 →
      0 < (chainRuns maxDepth B C depth).2 := by
  intro k
  induction k with
  | zero =>
    intro C depth hk hlt
    have h1 : 1 < (C + B - 1) / B := by omega
    have hBC : B < C := ceil_div_gt_one B C hB h1
    unfold chainRuns
    rw [dif_neg (by rw [chainControl_fired_exhausted _ _ _ _ _ (by omega)]; simp)]
    show 0 < C - min C B
    rw [Nat.min_eq_right (Nat.le_of_lt hBC)]
    omega
  | succ k ih =>
    intro C depth hk hlt
    have h1 : 1 < (C + B - 1) / B := by omega
    have hBC : B < C := ceil_div_gt_one B C hB h1
    have hmin : min C B = B := Nat.min_eq_right (Nat.le_of_lt hBC)
    unfold chainRuns
    rw [dif_pos ((chainControl_fired_some_iff _ _ _ _ _).mpr ⟨by rw [hmin]; omega, by omega⟩)]
    simp only [hmin]
    apply ih (C - B) (depth + 1) (by omega)
    have hdiv : (C + B - 1) / B = (C - B + B - 1) / B + 1 := ceil_div_step B C hB hBC
    omega

/-! ## Episode records of the summarization pipeline -/

namespace Summarize

/-- From the source config: maximum self-chain iterations of the
summarization backfill. -/
def MAX_BACKFILL_DEPTH : Nat := 15

/-- From the source config: summarizations attempted per run. -/
def EPISODES_PER_RUN : Nat := 2

/-- A web source entry. The snippet property is optional. -/
structure WebSource where
  title : String
  url : String
  snippet : Option String

/-- The columns of an episodes row that the summarization handler selects.
Nullable text columns are Option String, JSON columns are Json with Json.null
for SQL NULL. -/
structure Episode where
  id : String
  title : String
  published_at : Nat
  published_date : String
  transcript : Option String
  highlights : Json
  sources : Json
  highlights_error : Option String

/-- From the source handler: the candidate filter of the summarization job.
A row is a candidate when its transcript is real and its highlights or its
sources are missing. -/
def isCandidate (r : Episode) : Bool :=
  isRealTranscript r.transcript && (missingHighlights r.highlights || isEmptySources r.sources)

end Summarize

/-- From the background ingestion handler: a row needs transcription exactly
when its transcript is not real. -/
def needsTranscription (t : Option String) : Bool := !(isRealTranscript t)

theorem missingHighlights_iff (h : Json) :
    missingHighlights h = true ↔ (h = Json.null ∨ h = Json.obj []) := by
  cases h <;> simp [missingHighlights, Json.isNull, isEmptyObject, List.isEmpty_iff]

theorem isEmptySources_iff (s : Json) :
    isEmptySources s = true ↔ (s = Json.null ∨ s = Json.arr []) := by
  cases s <;> simp [isEmptySources, List.isEmpty_iff]

/-- C3: the ingestion classifier marks a record as needing transcription iff
its transcript is absent, equals the processing sentinel, starts with the
error sentinel prefix, or has at most 2000 characters. -/
theorem claim_C3 (t : Option String) :
    needsTranscription t = true ↔
      (t = none ∨ ∃ s, t = some s ∧
        (s = "__PROCESSING_TRANSCRIPT__" ∨ strStartsWith s "__ERROR__" = true ∨
          s.length ≤ 2000)) := by
  cases t with
  | none => simp [needsTranscription, isRealTranscript]
  | some s =>
    simp only [needsTranscription, isRealTranscript, Bool.not_eq_true',
      reduceCtorEq, Option.some.injEq, false_or]
    by_cases h1 : s = ""
    · subst h1
      simp [strStartsWith, List.isPrefixOf]
    · rw [if_neg h1]
      by_cases h2 : s = "__PROCESSING_TRANSCRIPT__"
      · subst h2
        simp
      · rw [if_neg h2]
        by_cases h3 : strStartsWith s "__ERROR__" = true
        · simp [h3]
        · rw [if_neg h3]
          simp only [decide_eq_false_iff_not, Nat.not_lt]
          constructor
          · intro hlen
            exact ⟨s, rfl, Or.inr (Or.inr hlen)⟩
          · rintro ⟨s', hs', hP⟩
            cases hs'
            rcases hP with hP | hP | hP
            · exact absurd hP h2
            · exact absurd hP h3
            · exact hP

/-- C4: a record with a real transcript is a summarization candidate iff its
highlights column is null or an empty object, or its sources column is null
or an empty array; a record without a real transcript is never a candidate. -/
theorem claim_C4 (r : Summarize.Episode) :
    Summarize.isCandidate r = true ↔
      (isRealTranscript r.transcript = true ∧
        ((r.highlights = Json.null ∨ r.highlights = Json.obj []) ∨
         (r.sources = Json.null ∨ r.sources = Json.arr []))) := by
  unfold Summarize.isCandidate
  rw [Bool.and_eq_true, Bool.or_eq_true]
  rw [missingHighlights_iff, isEmptySources_iff]

/-! ## Source deduplication (summarization retrieval) -/

namespace Summarize

/-- The entry pushed by dedupeSources: same title and snippet, trimmed url. -/
def pushEntry (s : WebSource) : WebSource :=
  { title := s.title, url := strTrim s.url, snippet := s.snippet }

/-- The loop of dedupeSources from the source: walk the input keeping a set of
seen urls and an output accumulator; skip blank or already-seen trimmed urls;
push the entry and stop as soon as the output reaches the cap. -/
def dedupeGo (cap : Nat) : List WebSource → List String → List WebSource → List WebSource
  | [], _, out => out
  | s :: rest, seen, out =>
    if strTrim s.url = "" || seen.contains (strTrim s.url) then
      dedupeGo cap rest seen out
    else if cap ≤ out.length + 1 then out ++ [pushEntry s]
    else dedupeGo cap rest (strTrim s.url :: seen) (out ++ [pushEntry s])

/-- From the source: dedupeSources. The source declares a default cap of 3;
the handler calls it with cap 5. -/
def dedupeSources (sources : List WebSource) (cap : Nat) : List WebSource :=
  dedupeGo cap sources [] []

/-- Spec-side description of deduplication: keep, in first-seen order, the
first occurrence of every nonempty trimmed url, dropping later repeats. -/
def dedupeFirstBy : List WebSource → List WebSource
  | [] => []
  | s :: rest =>
    if strTrim s.url = "" then dedupeFirstBy rest
    else pushEntry s :: dedupeFirstBy (rest.filter (fun t => !(strTrim t.url == strTrim s.url)))
termination_by l => l.length
decreasing_by
  · simp only [List.length_cons]
    omega
  · simp only [List.length_cons]
    have := List.length_filter_le (fun t => !(strTrim t.url == strTrim s.url)) rest
    omega


theorem dedupeGo_nil (cap : Nat) (seen : List String) (out : List WebSource) :
    dedupeGo cap [] seen out = out := rfl

theorem dedupeGo_cons (cap : Nat) (s : WebSource) (rest : List WebSource)
    (seen : List String) (out : List WebSource) :
    dedupeGo cap (s :: rest) seen out =
      if strTrim s.url = "" || seen.contains (strTrim s.url) then
        dedupeGo cap rest seen out
      else if cap ≤ out.length + 1 then out ++ [pushEntry s]
      else dedupeGo cap rest (strTrim s.url :: seen) (out ++ [pushEntry s]) := rfl

theorem dedupeFirstBy_nil : dedupeFirstBy [] = [] := by
  rw [dedupeFirstBy.eq_def]

theorem dedupeFirstBy_cons (s : WebSource) (rest : List WebSource) :
    dedupeFirstBy (s :: rest) =
      if strTrim s.url = "" then dedupeFirstBy rest
      else pushEntry s ::
        dedupeFirstBy (rest.filter (fun t => !(strTrim t.url == strTrim s.url))) := by
  rw [dedupeFirstBy.eq_def]

theorem dedupeGo_spec (cap : Nat) :
    ∀ (l : List WebSource) (seen : List String) (out : List WebSource),
      out.length < cap →
      dedupeGo cap l seen out =
        out ++ (dedupeFirstBy (l.filter (fun s => !(seen.contains (strTrim s.url))))).take
          (cap - out.length) := by
  intro l
  induction l with
  | nil =>
    intro seen out hlt
    simp [dedupeGo_nil, dedupeFirstBy_nil]
  | cons s rest ih =>
    intro seen out hlt
    by_cases hseen : strTrim s.url ∈ seen
    · have hseenB : seen.contains (strTrim s.url) = true := List.elem_iff.mpr hseen
      have hfil : (s :: rest).filter (fun t => !(seen.contains (strTrim t.url))) =
          rest.filter (fun t => !(seen.contains (strTrim t.url))) := by
        rw [List.filter_cons, if_neg (by simp [hseen])]
      rw [hfil, dedupeGo_cons, if_pos (by simp [hseen])]
      exact ih seen out hlt
    · have hseenB : seen.contains (strTrim s.url) = false := by
        rw [← Bool.not_eq_true]
        exact fun h => hseen (List.elem_iff.mp h)
      have hfil : (s :: rest).filter (fun t => !(seen.contains (strTrim t.url))) =
          s :: rest.filter (fun t => !(seen.contains (strTrim t.url))) := by
        rw [List.filter_cons, if_pos (by simp [hseen])]
      rw [hfil]
      by_cases hblank : strTrim s.url = ""
      · rw [dedupeGo_cons, if_pos (by simp [hblank])]
        rw [ih seen out hlt]
        rw [dedupeFirstBy_cons, if_pos hblank]
      · rw [dedupeFirstBy_cons, if_neg hblank]
        have hmerge : (rest.filter (fun t => !(seen.contains (strTrim t.url)))).filter
            (fun t => !(strTrim t.url == strTrim s.url)) =
            rest.filter (fun t => !((strTrim s.url :: seen).contains (strTrim t.url))) := by
          rw [List.filter_filter]
          apply List.filter_congr
          intro t _
          rw [List.contains_cons, Bool.not_or]
        rw [hmerge]
        obtain ⟨m, hm⟩ : ∃ m, cap - out.length = m + 1 := ⟨cap - out.length - 1, by omega⟩
        rw [hm, List.take_succ_cons]
        rw [dedupeGo_cons, if_neg (by simp [hblank, hseen])]
        by_cases hfull : cap ≤ out.length + 1
        · rw [if_pos hfull]
          have hm0 : m = 0 := by omega
          subst hm0
          simp
        · rw [if_neg hfull]
          rw [ih (strTrim s.url :: seen) (out ++ [pushEntry s]) (by simp; omega)]
          have hlen : cap - (out ++ [pushEntry s]).length = m := by
            simp only [List.length_append, List.length_cons, List.length_nil]
            omega
          rw [hlen]
          simp

end Summarize

namespace Summarize

theorem mem_dedupeFirstBy_url :
    ∀ (n : Nat) (l : List WebSource), l.length ≤ n →
      ∀ x ∈ dedupeFirstBy l, ∃ s, s ∈ l ∧ x.url = strTrim s.url := by
  intro n
  induction n with
  | zero =>
    intro l hl x hx
    have hnil : l = [] := List.length_eq_zero.mp (Nat.le_zero.mp hl)
    subst hnil
    rw [dedupeFirstBy_nil] at hx
    simp at hx
  | succ n ih =>
    intro l hl x hx
    cases l with
    | nil =>
      rw [dedupeFirstBy_nil] at hx
      simp at hx
    | cons s rest =>
      rw [dedupeFirstBy_cons] at hx
      by_cases hblank : strTrim s.url = ""
      · rw [if_pos hblank] at hx
        obtain ⟨t, ht, hu⟩ := ih rest (by simp at hl; omega) x hx
        exact ⟨t, List.mem_cons_of_mem _ ht, hu⟩
      · rw [if_neg hblank] at hx
        rcases List.mem_cons.mp hx with hx | hx
        · exact ⟨s, List.mem_cons_self _ _, by rw [hx]; rfl⟩
        · have hlen : (rest.filter (fun t => !(strTrim t.url == strTrim s.url))).length ≤ n := by
            have := List.length_filter_le (fun t => !(strTrim t.url == strTrim s.url)) rest
            simp at hl
            omega
          obtain ⟨t, ht, hu⟩ := ih _ hlen x hx
          exact ⟨t, List.mem_cons_of_mem _ (List.mem_filter.mp ht).1, hu⟩

theorem dedupeFirstBy_urls_nodup :
    ∀ (n : Nat) (l : List WebSource), l.length ≤ n →
      ((dedupeFirstBy l).map (fun w => w.url)).Nodup := by
  intro n
  induction n with
  | zero =>
    intro l hl
    have hnil : l = [] := List.length_eq_zero.mp (Nat.le_zero.mp hl)
    subst hnil
    rw [dedupeFirstBy_nil]
    simp
  | succ n ih =>
    intro l hl
    cases l with
    | nil =>
      rw [dedupeFirstBy_nil]
      simp
    | cons s rest =>
      rw [dedupeFirstBy_cons]
      by_cases hblank : strTrim s.url = ""
      · rw [if_pos hblank]
        exact ih rest (by simp at hl; omega)
      · rw [if_neg hblank]
        have hlen : (rest.filter (fun t => !(strTrim t.url == strTrim s.url))).length ≤ n := by
          have := List.length_filter_le (fun t => !(strTrim t.url == strTrim s.url)) rest
          simp at hl
          omega
        rw [List.map_cons]
        apply List.nodup_cons.mpr
        constructor
        · intro hmem
          obtain ⟨x, hx, hxu⟩ := List.mem_map.mp hmem
          obtain ⟨t, ht, htu⟩ := mem_dedupeFirstBy_url n _ hlen x hx
          have hpred := (List.mem_filter.mp ht).2
          simp only [Bool.not_eq_true', beq_eq_false_iff_ne, ne_eq] at hpred
          apply hpred
          rw [← htu, hxu]
          rfl
        · exact ih _ hlen

end Summarize

/-- C9: for every input source list, dedupeSources with a positive cap (the
configured caps are 3 and 5) returns at most cap entries, each url exactly
once, and preserves first-seen order keeping the first occurrence of each
url: it equals the spec-side first-occurrence deduplication cut at cap. -/
theorem claim_C9 (sources : List Summarize.WebSource) (cap : Nat) (hcap : 0 < cap) :
    (Summarize.dedupeSources sources cap).length ≤ cap ∧
    ((Summarize.dedupeSources sources cap).map (fun w => w.url)).Nodup ∧
    Summarize.dedupeSources sources cap = (Summarize.dedupeFirstBy sources).take cap := by
  have hfil : sources.filter (fun s => !(([] : List String).contains (strTrim s.url))) =
      sources := List.filter_eq_self.mpr (fun a _ => rfl)
  have hspec := Summarize.dedupeGo_spec cap sources [] [] (by simpa using hcap)
  rw [hfil] at hspec
  simp only [List.length_nil, Nat.sub_zero, List.nil_append] at hspec
  have hmain : Summarize.dedupeSources sources cap =
      (Summarize.dedupeFirstBy sources).take cap := hspec
  refine ⟨?_, ?_, hmain⟩
  · rw [hmain]
    exact List.length_take_le cap _
  · rw [hmain, List.map_take]
    exact List.Nodup.sublist (List.take_sublist cap _)
      (Summarize.dedupeFirstBy_urls_nodup sources.length sources Nat.le.refl)

theorem claim_C9_witness :
    (Summarize.dedupeSources
        [⟨"a", "u1", none⟩, ⟨"b", "u1", some "x"⟩, ⟨"c", "u2", none⟩] 3).length ≤ 3 ∧
    ((Summarize.dedupeSources
        [⟨"a", "u1", none⟩, ⟨"b", "u1", some "x"⟩, ⟨"c", "u2", none⟩] 3).map
          (fun w => w.url)).Nodup ∧
    Summarize.dedupeSources [⟨"a", "u1", none⟩, ⟨"b", "u1", some "x"⟩, ⟨"c", "u2", none⟩] 3 =
      (Summarize.dedupeFirstBy
        [⟨"a", "u1", none⟩, ⟨"b", "u1", some "x"⟩, ⟨"c", "u2", none⟩]).take 3 :=
  claim_C9 [⟨"a", "u1", none⟩, ⟨"b", "u1", some "x"⟩, ⟨"c", "u2", none⟩] 3 (by decide)

/-! ## Highlights validation (summarization) -/

/-- Whether an Except value is a success; models control reaching the end of a
JS try block without a throw. -/
def exOk {ε α : Type} : Except ε α → Bool
  | Except.ok _ => true
  | Except.error _ => false

namespace Summarize

/-- From the source validateHighlights: the req helper. The field must be a
string whose trim is nonempty, otherwise throw. -/
def vhReq (h : Json) (k : String) : Except String Unit :=
  match getField h k with
  | some (Json.str s) =>
    if isBlank s then Except.error ("Missing " ++ k) else Except.ok ()
  | _ => Except.error ("Missing " ++ k)

/-- The body of the per-story check of validateHighlights: headline and
why_it_matters must be strings with nonempty trims. -/
def checkStoryFields (s : Json) : Except String Unit :=
  match getField s "headline" with
  | some (Json.str hd) =>
    if isBlank hd then Except.error "story missing headline"
    else
      match getField s "why_it_matters" with
      | some (Json.str w) =>
        if isBlank w then Except.error "story missing why_it_matters" else Except.ok ()
      | _ => Except.error "story missing why_it_matters"
  | _ => Except.error "story missing headline"

/-- From the source validateHighlights: the per-story check. A JS falsy or
non-object story throws; arrays pass the typeof test and then fail the field
lookups. -/
def checkStory (s : Json) : Except String Unit :=
  match s with
  | Json.obj _ => checkStoryFields s
  | Json.arr _ => checkStoryFields s
  | _ => Except.error "story is not an object"

/-- The for-of loop over h.stories in validateHighlights: stop at the first
throwing story. -/
def checkStories : List Json → Except String Unit
  | [] => Except.ok ()
  | s :: rest =>
    match checkStory s with
    | Except.ok _ => checkStories rest
    | Except.error e => Except.error e

/-- The checks of validateHighlights after the initial object test. -/
def validateFields (h : Json) : Except String Json :=
  match vhReq h "one_sentence_summary" with
  | Except.error e => Except.error e
  | Except.ok _ =>
    match vhReq h "what_changed" with
    | Except.error e => Except.error e
    | Except.ok _ =>
      match vhReq h "why_it_matters_now" with
      | Except.error e => Except.error e
      | Except.ok _ =>
        match vhReq h "who_should_care" with
        | Except.error e => Except.error e
        | Except.ok _ =>
          match getField h "top_takeaways" with
          | some (Json.arr xs) =>
            if xs.length < 4 then Except.error "top_takeaways must have at least 4 items"
            else
              match getField h "stories" with
              | some (Json.arr ys) =>
                if ys.length < 3 then Except.error "stories must have at least 3 items"
                else
                  match checkStories ys with
                  | Except.error e => Except.error e
                  | Except.ok _ => Except.ok h
              | _ => Except.error "stories must have at least 3 items"
          | _ => Except.error "top_takeaways must have at least 4 items"

/-- From the source: validateHighlights. A falsy or non-object value throws at
once; JS arrays pass the typeof test and then fail the field checks. On
success the payload itself is returned. -/
def validateHighlights (h : Json) : Except String Json :=
  match h with
  | Json.obj _ => validateFields h
  | Json.arr _ => validateFields h
  | _ => Except.error "Highlights not an object"

/-- Spec-side reading of the req check: the named narrative field is present
as a string with a nonempty trim. -/
def requiredNarrativeOk (h : Json) (k : String) : Bool :=
  match getField h k with
  | some (Json.str s) => !(isBlank s)
  | _ => false

/-- Spec-side reading of the per-story check: the story has a headline and a
why_it_matters rationale, both strings with nonempty trims. -/
def storyFieldsOk (s : Json) : Bool :=
  (match getField s "headline" with
   | some (Json.str hd) => !(isBlank hd)
   | _ => false) &&
  (match getField s "why_it_matters" with
   | some (Json.str w) => !(isBlank w)
   | _ => false)

theorem vhReq_ok (h : Json) (k : String) : exOk (vhReq h k) = requiredNarrativeOk h k := by
  unfold vhReq requiredNarrativeOk
  rcases hg : getField h k with _ | j
  · rfl
  · cases j with
    | str s =>
      by_cases hb : isBlank s = true
      · simp [hb, exOk]
      · simp only [Bool.not_eq_true] at hb
        simp [hb, exOk]
    | _ => rfl

theorem checkStoryFields_ok (s : Json) : exOk (checkStoryFields s) = storyFieldsOk s := by
  unfold checkStoryFields storyFieldsOk
  rcases h1 : getField s "headline" with _ | j1
  · rfl
  · cases j1 with
    | str hd =>
      by_cases hb : isBlank hd = true
      · simp [hb, exOk]
      · simp only [Bool.not_eq_true] at hb
        rcases h2 : getField s "why_it_matters" with _ | j2
        · simp [hb, exOk]
        · cases j2 with
          | str w =>
            by_cases hw : isBlank w = true
            · simp [hb, hw, exOk]
            · simp only [Bool.not_eq_true] at hw
              simp [hb, hw, exOk]
          | _ => simp [hb, exOk]
    | _ => rfl

theorem checkStory_ok (s : Json) : exOk (checkStory s) = storyFieldsOk s := by
  cases s with
  | obj kvs => exact checkStoryFields_ok (Json.obj kvs)
  | arr xs => exact checkStoryFields_ok (Json.arr xs)
  | _ => rfl

theorem checkStories_ok (ys : List Json) : exOk (checkStories ys) = ys.all storyFieldsOk := by
  induction ys with
  | nil => rfl
  | cons s rest ih =>
    unfold checkStories
    rcases hc : checkStory s with e | u
    · have hs : storyFieldsOk s = false := by rw [← checkStory_ok, hc]; rfl
      simp [exOk, hs]
    · have hs : storyFieldsOk s = true := by rw [← checkStory_ok, hc]; rfl
      simp [hs, ih]

end Summarize

namespace Summarize

/-- Spec-side reading of the takeaways check: top_takeaways is an array with
at least 4 items. -/
def takeawaysOk (h : Json) : Bool :=
  match getField h "top_takeaways" with
  | some (Json.arr xs) => decide (4 ≤ xs.length)
  | _ => false

/-- Spec-side reading of the stories check: stories is an array with at least
3 items, every one of which has the two nonempty story fields. -/
def storiesOk (h : Json) : Bool :=
  match getField h "stories" with
  | some (Json.arr ys) => decide (3 ≤ ys.length) && ys.all storyFieldsOk
  | _ => false

theorem validateFields_ok (h : Json) :
    exOk (validateFields h) =
      (requiredNarrativeOk h "one_sentence_summary" &&
       requiredNarrativeOk h "what_changed" &&
       requiredNarrativeOk h "why_it_matters_now" &&
       requiredNarrativeOk h "who_should_care" &&
       takeawaysOk h && storiesOk h) := by
  unfold validateFields
  rcases hr1 : vhReq h "one_sentence_summary" with e | u
  · have h1 : requiredNarrativeOk h "one_sentence_summary" = false := by
      rw [← vhReq_ok, hr1]; rfl
    simp [exOk, h1]
  · have h1 : requiredNarrativeOk h "one_sentence_summary" = true := by
      rw [← vhReq_ok, hr1]; rfl
    rw [h1]
    rcases hr2 : vhReq h "what_changed" with e | u
    · have h2 : requiredNarrativeOk h "what_changed" = false := by
        rw [← vhReq_ok, hr2]; rfl
      simp [exOk, h2]
    · have h2 : requiredNarrativeOk h "what_changed" = true := by
        rw [← vhReq_ok, hr2]; rfl
      rw [h2]
      rcases hr3 : vhReq h "why_it_matters_now" with e | u
      · have h3 : requiredNarrativeOk h "why_it_matters_now" = false := by
          rw [← vhReq_ok, hr3]; rfl
        simp [exOk, h3]
      · have h3 : requiredNarrativeOk h "why_it_matters_now" = true := by
          rw [← vhReq_ok, hr3]; rfl
        rw [h3]
        rcases hr4 : vhReq h "who_should_care" with e | u
        · have h4 : requiredNarrativeOk h "who_should_care" = false := by
            rw [← vhReq_ok, hr4]; rfl
          simp [exOk, h4]
        · have h4 : requiredNarrativeOk h "who_should_care" = true := by
            rw [← vhReq_ok, hr4]; rfl
          rw [h4]
          simp only [Bool.true_and]
          unfold takeawaysOk storiesOk
          rcases hg5 : getField h "top_takeaways" with _ | j5
          · rfl
          · cases j5 with
            | arr xs =>
              by_cases hlen : xs.length < 4
              · have h45 : ¬ 4 ≤ xs.length := by omega
                simp [exOk, hlen, h45]
              · have h45 : decide (4 ≤ xs.length) = true := decide_eq_true (by omega)
                simp only [if_neg hlen, h45, Bool.true_and]
                rcases hg6 : getField h "stories" with _ | j6
                · rfl
                · cases j6 with
                  | arr ys =>
                    by_cases hlen2 : ys.length < 3
                    · have h33 : ¬ 3 ≤ ys.length := by omega
                      simp [exOk, hlen2, h33]
                    · have h33 : decide (3 ≤ ys.length) = true := decide_eq_true (by omega)
                      simp only [if_neg hlen2, h33, Bool.true_and]
                      rw [← checkStories_ok]
                      rcases hcs : checkStories ys with e | u <;> simp [exOk]
                  | _ => rfl
            | _ => rfl

theorem validateHighlights_ok (h : Json) :
    exOk (validateHighlights h) =
      (requiredNarrativeOk h "one_sentence_summary" &&
       requiredNarrativeOk h "what_changed" &&
       requiredNarrativeOk h "why_it_matters_now" &&
       requiredNarrativeOk h "who_should_care" &&
       takeawaysOk h && storiesOk h) := by
  cases h with
  | obj kvs => exact validateFields_ok (Json.obj kvs)
  | arr xs => exact validateFields_ok (Json.arr xs)
  | null => rfl
  | bool b => rfl
  | num n => rfl
  | str s => rfl

theorem validateFields_ok_val (h h' : Json)
    (hok : validateFields h = Except.ok h') : h' = h := by
  unfold validateFields at hok
  repeat' split at hok
  all_goals first
    | (cases hok; rfl)
    | (cases hok)

/-- On success, validateHighlights returns the payload itself. -/
theorem validateHighlights_ok_val (h h' : Json)
    (hok : validateHighlights h = Except.ok h') : h' = h := by
  cases h with
  | obj kvs => exact validateFields_ok_val (Json.obj kvs) h' hok
  | arr xs => exact validateFields_ok_val (Json.arr xs) h' hok
  | null => cases hok
  | bool b => cases hok
  | num n => cases hok
  | str s => cases hok

end Summarize

/-! ## Generic record-store operations -/

/-- Insertion step of a sort by a numeric key, descending. -/
def sortInsert {α : Type} (key : α → Nat) (a : α) : List α → List α
  | [] => [a]
  | x :: xs => if key x < key a then a :: x :: xs else x :: sortInsert key a xs

/-- Model of the query ORDER BY key DESC: a stable insertion sort. -/
def sortByKeyDesc {α : Type} (key : α → Nat) (l : List α) : List α :=
  l.foldr (sortInsert key) []

theorem sortInsert_perm {α : Type} (key : α → Nat) (a : α) (l : List α) :
    (sortInsert key a l).Perm (a :: l) := by
  induction l with
  | nil => exact List.Perm.refl _
  | cons x xs ih =>
    unfold sortInsert
    split
    · exact List.Perm.refl _
    · exact List.Perm.trans (List.Perm.cons x ih) (List.Perm.swap a x xs)

theorem sortByKeyDesc_perm {α : Type} (key : α → Nat) (l : List α) :
    (sortByKeyDesc key l).Perm l := by
  induction l with
  | nil => exact List.Perm.refl _
  | cons x xs ih =>
    exact List.Perm.trans (sortInsert_perm key x (sortByKeyDesc key xs)) (List.Perm.cons x ih)

theorem mem_sortByKeyDesc {α : Type} (key : α → Nat) (l : List α) (a : α) :
    a ∈ sortByKeyDesc key l ↔ a ∈ l :=
  (sortByKeyDesc_perm key l).mem_iff

/-- Model of UPDATE ... WHERE id = key a: replace every row carrying that key. -/
def updateByKey {α : Type} (key : α → String) (store : List α) (a : α) : List α :=
  store.map (fun r => if key r = key a then a else r)

theorem mem_updateByKey_of_ne {α : Type} (key : α → String) {store : List α} {r a : α}
    (hr : r ∈ store) (hne : key r ≠ key a) : r ∈ updateByKey key store a :=
  List.mem_map.mpr ⟨r, hr, if_neg hne⟩

theorem mem_updateByKey_self {α : Type} (key : α → String) {store : List α} {a : α}
    (h : ∃ x ∈ store, key x = key a) : a ∈ updateByKey key store a := by
  obtain ⟨x, hx, hk⟩ := h
  exact List.mem_map.mpr ⟨x, hx, if_pos hk⟩

theorem updateByKey_map_key {α : Type} (key : α → String) (store : List α) (a : α) :
    (updateByKey key store a).map key = store.map key := by
  unfold updateByKey
  rw [List.map_map]
  induction store with
  | nil => rfl
  | cons x xs ih =>
    simp only [List.map_cons, ih]
    by_cases hx : key x = key a
    · simp [Function.comp, hx]
    · simp [Function.comp, hx]

theorem exists_key_updateByKey {α : Type} (key : α → String) (store : List α) (a : α)
    (u : String) (h : ∃ x ∈ store, key x = u) :
    ∃ x ∈ updateByKey key store a, key x = u := by
  obtain ⟨x, hx, hk⟩ := h
  by_cases hxa : key x = key a
  · exact ⟨a, mem_updateByKey_self key ⟨x, hx, hxa⟩, by rw [← hxa, hk]⟩
  · exact ⟨x, mem_updateByKey_of_ne key hx hxa, hk⟩

/-- Keys identify rows in a store whose key list has no duplicates. -/
theorem eq_of_nodup_key {α : Type} (key : α → String) {l : List α}
    (h : (l.map key).Nodup) {a b : α} (ha : a ∈ l) (hb : b ∈ l) (hk : key a = key b) :
    a = b :=
  List.inj_on_of_nodup_map h ha hb hk

/-! ## The summarization run -/

namespace Summarize

/-- External calls attributed to one candidate record: the topic-extraction
model call, a web search with its query, and the highlights model call. -/
inductive CallEvent where
  | topicsCall (id : String)
  | searchCall (id : String) (query : String)
  | modelCall (id : String)
deriving DecidableEq

/-- The record id an external call was made for. -/
def eventId : CallEvent → String
  | CallEvent.topicsCall i => i
  | CallEvent.searchCall i _ => i
  | CallEvent.modelCall i => i

/-- Oracle for the summarization job's external services. topicsRaw stands
for the topic-extraction chat call plus its bracket-extraction and JSON
parse, keyed by the transcript excerpt and title; search stands for
tavilySearch keyed by query and result cap; modelPayload stands for the
highlights chat call plus safeJsonParse, keyed by the record id. An
Except.error value is a thrown exception. -/
structure SumOracle where
  topicsRaw : String → String → Except String (List String)
  search : String → Nat → Except String (List WebSource)
  modelPayload : String → Except String Json

/-- From the source extractSearchTopics: call the model on the first 10000
characters of the transcript; any failure yields the empty topic list;
otherwise keep nonblank strings, at most 4. -/
def extractSearchTopics (o : SumOracle) (transcript title : String) : List String :=
  match o.topicsRaw (strTake transcript 10000) title with
  | Except.error _ => []
  | Except.ok parsed => (parsed.filter (fun t => !(isBlank t))).take 4

/-- The fallback title-based search query of the handler. -/
def fallbackQuery (ep : Episode) : String :=
  ep.title ++ " " ++ ep.published_date ++ " AI news announcement"

/-- JSON serialization of a web source entry, as persisted to the sources
column; an absent snippet is omitted. -/
def webSourceJson (s : WebSource) : Json :=
  Json.obj (("title", Json.str s.title) :: ("url", Json.str s.url) ::
    (match s.snippet with
     | some sn => [("snippet", Json.str sn)]
     | none => []))

/-- The sources column value persisted for a retrieved list. -/
def sourcesJson (l : List WebSource) : Json := Json.arr (l.map webSourceJson)

/-- A tavilySearch call whose failure is caught and turned into no results,
as in the per-topic searches and the fallback search of the handler. -/
def searchOr (o : SumOracle) (q : String) (n : Nat) : List WebSource :=
  match o.search q n with
  | Except.ok rs => rs
  | Except.error _ => []

/-- The transcript string of a candidate (candidates always have one). -/
def transcriptOf (ep : Episode) : String := ep.transcript.getD ""

/-- The merged results of the per-topic searches: at most 3 topic queries,
2 results each, failures caught per query. -/
def topicResults (o : SumOracle) (topics : List String) : List WebSource :=
  ((topics.take 3).map (fun q => searchOr o q 2)).flatten

/-- The retrieval of the handler: per-topic searches, then the title-based
fallback search (3 results, failure caught) when nothing came back. -/
def retrievedSources (o : SumOracle) (ep : Episode) : List WebSource :=
  if (topicResults o (extractSearchTopics o (transcriptOf ep) ep.title)).isEmpty then
    searchOr o (fallbackQuery ep) 3
  else topicResults o (extractSearchTopics o (transcriptOf ep) ep.title)

/-- The external calls performed by the retrieval step. -/
def sourcesEvents (o : SumOracle) (ep : Episode) : List CallEvent :=
  CallEvent.topicsCall ep.id ::
    (((extractSearchTopics o (transcriptOf ep) ep.title).take 3).map
        (CallEvent.searchCall ep.id) ++
      (if (topicResults o (extractSearchTopics o (transcriptOf ep) ep.title)).isEmpty then
        [CallEvent.searchCall ep.id (fallbackQuery ep)]
      else []))

/-- The retrieval step of one candidate: when the sources column is missing,
retrieve, dedupe with cap 5, and persist the result to the record. -/
def sourcesPhase (o : SumOracle) (ep : Episode) : Episode × List CallEvent :=
  if isEmptySources ep.sources then
    ({ ep with sources := sourcesJson (dedupeSources (retrievedSources o ep) 5) },
     sourcesEvents o ep)
  else (ep, [])

/-- The fallible summarization step of one candidate: when highlights are
missing, the model payload is obtained and validated; the first failure is
the thrown exception of the try block. Json.null and the empty object both
count as missing. -/
def hlOutcome (o : SumOracle) (ep : Episode) : Except String (Option Json) :=
  if missingHighlights ep.highlights then
    match o.modelPayload ep.id with
    | Except.error msg => Except.error msg
    | Except.ok pay =>
      match validateHighlights pay with
      | Except.error msg => Except.error msg
      | Except.ok hl => Except.ok (some hl)
  else Except.ok none

/-- The model call performed by the summarization step. -/
def hlEvents (ep : Episode) : List CallEvent :=
  if missingHighlights ep.highlights then [CallEvent.modelCall ep.id] else []

/-- One iteration of the candidate loop: retrieval, then summarization; on
success persist highlights and clear highlights_error; on a thrown failure
persist the message, cut to 800 characters, to highlights_error. The Bool is
whether the run counts this record as processed. -/
def processSumCandidate (o : SumOracle) (ep : Episode) : Episode × Bool × List CallEvent :=
  match hlOutcome o (sourcesPhase o ep).1 with
  | Except.ok none =>
    ((sourcesPhase o ep).1, true,
     (sourcesPhase o ep).2 ++ hlEvents (sourcesPhase o ep).1)
  | Except.ok (some hl) =>
    ({ (sourcesPhase o ep).1 with highlights := hl, highlights_error := none }, true,
     (sourcesPhase o ep).2 ++ hlEvents (sourcesPhase o ep).1)
  | Except.error msg =>
    ({ (sourcesPhase o ep).1 with highlights_error := some (strTake msg 800) }, false,
     (sourcesPhase o ep).2 ++ hlEvents (sourcesPhase o ep).1)

/-- The candidate loop of the handler: process each snapshot row in order,
writing each result back to the store by id; one record's failure never stops
the loop. Returns the final store, the processed count, and the call log. -/
def sumLoop (o : SumOracle) : List Episode → List Episode → List Episode × Nat × List CallEvent
  | [], store => (store, 0, [])
  | ep :: rest, store =>
    ((sumLoop o rest (updateByKey (fun e => e.id) store (processSumCandidate o ep).1)).1,
     (if (processSumCandidate o ep).2.1 then 1 else 0) +
       (sumLoop o rest (updateByKey (fun e => e.id) store (processSumCandidate o ep).1)).2.1,
     (processSumCandidate o ep).2.2 ++
       (sumLoop o rest (updateByKey (fun e => e.id) store (processSumCandidate o ep).1)).2.2)

/-- The query window of the handler: the 30 most recently published rows. -/
def recentWindow (store : List Episode) : List Episode :=
  (sortByKeyDesc (fun e => e.published_at) store).take 30

/-- allCandidates of the handler: the window rows that pass the filter. -/
def allCandidatesOf (store : List Episode) : List Episode :=
  (recentWindow store).filter isCandidate

/-- The batch actually processed: the first EPISODES_PER_RUN candidates. -/
def batchOf (store : List Episode) : List Episode :=
  (allCandidatesOf store).take EPISODES_PER_RUN

/-- The JSON body of the 200 response of the summarization handler, plus the
chain decision; chain_next_depth is the depth of the fire-and-forget
continuation, if one was issued. -/
structure SumResponse where
  statusCode : Nat
  depth : Nat
  processed : Nat
  remaining_candidates : Nat
  chain_triggered : Bool
  chain_next_depth : Option Nat
deriving DecidableEq

/-- The whole summarization run: select candidates over the recent window,
process the batch, and decide the chain. Returns the response, the final
store, and the call log. -/
def sumRun (o : SumOracle) (depth : Nat) (base : Option String) (store : List Episode) :
    SumResponse × List Episode × List CallEvent :=
  ({ statusCode := 200, depth := depth,
     processed := (sumLoop o (batchOf store) store).2.1,
     remaining_candidates :=
       (chainControl MAX_BACKFILL_DEPTH (allCandidatesOf store).length (batchOf store).length
         depth base).remaining,
     chain_triggered :=
       (chainControl MAX_BACKFILL_DEPTH (allCandidatesOf store).length (batchOf store).length
         depth base).fired.isSome,
     chain_next_depth :=
       (chainControl MAX_BACKFILL_DEPTH (allCandidatesOf store).length (batchOf store).length
         depth base).fired },
   (sumLoop o (batchOf store) store).1,
   (sumLoop o (batchOf store) store).2.2)

theorem sourcesPhase_id (o : SumOracle) (ep : Episode) :
    ((sourcesPhase o ep).1).id = ep.id := by
  unfold sourcesPhase
  split <;> rfl

theorem sourcesPhase_transcript (o : SumOracle) (ep : Episode) :
    ((sourcesPhase o ep).1).transcript = ep.transcript := by
  unfold sourcesPhase
  split <;> rfl

theorem sourcesPhase_highlights (o : SumOracle) (ep : Episode) :
    ((sourcesPhase o ep).1).highlights = ep.highlights := by
  unfold sourcesPhase
  split <;> rfl

theorem processSumCandidate_id (o : SumOracle) (ep : Episode) :
    ((processSumCandidate o ep).1).id = ep.id := by
  unfold processSumCandidate
  split <;> simp [sourcesPhase_id]

theorem processSumCandidate_transcript (o : SumOracle) (ep : Episode) :
    ((processSumCandidate o ep).1).transcript = ep.transcript := by
  unfold processSumCandidate
  split <;> simp [sourcesPhase_transcript]

theorem processSumCandidate_events_id (o : SumOracle) (ep : Episode) :
    ∀ ev ∈ (processSumCandidate o ep).2.2, eventId ev = ep.id := by
  have hsrc : ∀ ev ∈ (sourcesPhase o ep).2, eventId ev = ep.id := by
    unfold sourcesPhase
    split
    · intro ev hev
      unfold sourcesEvents at hev
      rcases List.mem_cons.mp hev with h | h
      · rw [h]; rfl
      · rcases List.mem_append.mp h with h | h
        · obtain ⟨q, _, hq⟩ := List.mem_map.mp h
          rw [← hq]; rfl
        · revert h
          split
          · intro h
            rcases List.mem_singleton.mp h with h
            rw [h]; rfl
          · intro h
            simp at h
    · intro ev hev
      simp at hev
  have hhl : ∀ ev ∈ hlEvents (sourcesPhase o ep).1, eventId ev = ep.id := by
    intro ev hev
    unfold hlEvents at hev
    revert hev
    split
    · intro hev
      rcases List.mem_singleton.mp hev with h
      rw [h]
      simp [eventId, sourcesPhase_id]
    · intro hev
      simp at hev
  intro ev hev
  unfold processSumCandidate at hev
  revert hev
  split <;>
    (intro hev
     rcases List.mem_append.mp hev with h | h
     · exact hsrc ev h
     · exact hhl ev h)

end Summarize

namespace Summarize

/-- The candidate loop is a fold of per-candidate, store-independent steps:
every snapshot row of the batch is processed exactly once, whatever the
outcomes of the others. -/
theorem sumLoop_closed (o : SumOracle) :
    ∀ (batch : List Episode) (store : List Episode),
      sumLoop o batch store =
        (batch.foldl (fun st ep => updateByKey (fun e => e.id) st (processSumCandidate o ep).1)
          store,
         (batch.map (fun ep => if (processSumCandidate o ep).2.1 then 1 else 0)).sum,
         (batch.map (fun ep => (processSumCandidate o ep).2.2)).flatten) := by
  intro batch
  induction batch with
  | nil => intro store; rfl
  | cons ep rest ih =>
    intro store
    unfold sumLoop
    rw [ih]
    rfl

theorem sumLoop_mem_of_ne (o : SumOracle) :
    ∀ (batch : List Episode) (store : List Episode) (r : Episode),
      r ∈ store → (∀ ep ∈ batch, ep.id ≠ r.id) → r ∈ (sumLoop o batch store).1 := by
  intro batch
  induction batch with
  | nil => intro store r hr _; exact hr
  | cons ep rest ih =>
    intro store r hr hne
    apply ih _ r
    · apply mem_updateByKey_of_ne
      · exact hr
      · show r.id ≠ ((processSumCandidate o ep).1).id
        rw [processSumCandidate_id]
        exact fun h => hne ep (List.mem_cons_self _ _) h.symm
    · exact fun e he => hne e (List.mem_cons_of_mem _ he)

theorem sumLoop_mem_processed (o : SumOracle) :
    ∀ (batch : List Episode) (store : List Episode) (r : Episode),
      ((batch.map (fun e => e.id)).Nodup) → r ∈ batch → (∃ x ∈ store, x.id = r.id) →
      (processSumCandidate o r).1 ∈ (sumLoop o batch store).1 := by
  intro batch
  induction batch with
  | nil => intro store r _ hr; simp at hr
  | cons ep rest ih =>
    intro store r hnodup hr hex
    rw [List.map_cons, List.nodup_cons] at hnodup
    rcases List.mem_cons.mp hr with hr | hr
    · subst hr
      show (processSumCandidate o r).1 ∈
        (sumLoop o rest (updateByKey (fun e => e.id) store (processSumCandidate o r).1)).1
      apply sumLoop_mem_of_ne
      · apply mem_updateByKey_self
        obtain ⟨x, hx, hk⟩ := hex
        exact ⟨x, hx, by rw [hk, processSumCandidate_id]⟩
      · intro e he heq
        apply hnodup.1
        rw [← processSumCandidate_id o r, ← heq]
        exact List.mem_map_of_mem _ he
    · show (processSumCandidate o r).1 ∈
        (sumLoop o rest (updateByKey (fun e => e.id) store (processSumCandidate o ep).1)).1
      apply ih _ r hnodup.2 hr
      apply exists_key_updateByKey
      exact hex

theorem sumLoop_map_id (o : SumOracle) :
    ∀ (batch : List Episode) (store : List Episode),
      ((sumLoop o batch store).1).map (fun e => e.id) = store.map (fun e => e.id) := by
  intro batch
  induction batch with
  | nil => intro store; rfl
  | cons ep rest ih =>
    intro store
    unfold sumLoop
    rw [ih, updateByKey_map_key]

theorem sumLoop_events_mem (o : SumOracle) :
    ∀ (batch : List Episode) (store : List Episode) (ev : CallEvent),
      ev ∈ (sumLoop o batch store).2.2 → ∃ ep ∈ batch, eventId ev = ep.id := by
  intro batch store ev hev
  rw [sumLoop_closed] at hev
  obtain ⟨l, hl, hevl⟩ := List.mem_flatten.mp hev
  obtain ⟨ep, hep, hl2⟩ := List.mem_map.mp hl
  refine ⟨ep, hep, ?_⟩
  apply processSumCandidate_events_id
  rw [hl2]
  exact hevl

theorem batchOf_sublist_store (store : List Episode) :
    ∀ r ∈ batchOf store, r ∈ store := by
  intro r hr
  unfold batchOf allCandidatesOf recentWindow at hr
  have h1 := List.take_sublist EPISODES_PER_RUN
    (((sortByKeyDesc (fun e => e.published_at) store).take 30).filter isCandidate)
  have h2 := h1.mem hr
  have h3 := (List.filter_sublist _).mem h2
  have h4 := (List.take_sublist 30 _).mem h3
  exact (mem_sortByKeyDesc _ store r).mp h4

theorem batchOf_isCandidate (store : List Episode) :
    ∀ r ∈ batchOf store, isCandidate r = true := by
  intro r hr
  unfold batchOf at hr
  have h2 := (List.take_sublist _ _).mem hr
  unfold allCandidatesOf at h2
  exact (List.mem_filter.mp h2).2

theorem batchOf_ids_nodup (store : List Episode)
    (hnodup : (store.map (fun e => e.id)).Nodup) :
    ((batchOf store).map (fun e => e.id)).Nodup := by
  have hperm : ((sortByKeyDesc (fun e => e.published_at) store).map (fun e => e.id)).Perm
      (store.map (fun e => e.id)) :=
    (sortByKeyDesc_perm (fun e => e.published_at) store).map (fun e => e.id)
  have hsortnodup := (List.Perm.nodup_iff hperm).mpr hnodup
  have hsub : (batchOf store).Sublist (sortByKeyDesc (fun e => e.published_at) store) := by
    unfold batchOf allCandidatesOf recentWindow
    exact ((List.take_sublist _ _).trans (List.filter_sublist _)).trans (List.take_sublist _ _)
  exact List.Nodup.sublist (hsub.map (fun e => e.id)) hsortnodup

end Summarize

namespace Summarize

theorem hlOutcome_phase (o : SumOracle) (ep : Episode) :
    hlOutcome o (sourcesPhase o ep).1 = hlOutcome o ep := by
  unfold hlOutcome
  rw [sourcesPhase_highlights, sourcesPhase_id]

theorem processSumCandidate_flag (o : SumOracle) (ep : Episode) :
    (processSumCandidate o ep).2.1 = exOk (hlOutcome o (sourcesPhase o ep).1) := by
  unfold processSumCandidate
  rcases h : hlOutcome o (sourcesPhase o ep).1 with msg | v
  · rfl
  · cases v <;> rfl

theorem processSumCandidate_sources (o : SumOracle) (ep : Episode) :
    ((processSumCandidate o ep).1).sources = ((sourcesPhase o ep).1).sources := by
  unfold processSumCandidate
  rcases h : hlOutcome o (sourcesPhase o ep).1 with msg | v
  · rfl
  · cases v <;> rfl

/-- One summarization run leaves a record that is not a candidate alone. -/
theorem sumRun_untouched (o : SumOracle) (d : Nat) (b : Option String)
    (store : List Episode) (r : Episode)
    (hmem : r ∈ store) (hnodup : (store.map (fun e => e.id)).Nodup)
    (hh : missingHighlights r.highlights = false)
    (hs : isEmptySources r.sources = false) :
    r ∈ (sumRun o d b store).2.1 ∧
    (∀ ev ∈ (sumRun o d b store).2.2, eventId ev ≠ r.id) := by
  have hcand : isCandidate r = false := by
    unfold isCandidate
    rw [hh, hs]
    simp
  have hne : ∀ ep ∈ batchOf store, ep.id ≠ r.id := by
    intro ep hep heq
    have hepstore := batchOf_sublist_store store ep hep
    have he : ep = r := eq_of_nodup_key (fun e => e.id) hnodup hepstore hmem heq
    have hc := batchOf_isCandidate store ep hep
    rw [he, hcand] at hc
    exact Bool.false_ne_true hc
  constructor
  · exact sumLoop_mem_of_ne o (batchOf store) store r hmem hne
  · intro ev hev heq
    obtain ⟨ep, hep, hevid⟩ := sumLoop_events_mem o (batchOf store) store ev hev
    exact hne ep hep (by rw [← hevid, heq])

end Summarize

/-- C7: validateHighlights accepts a payload iff every required narrative
field is a nonblank string, top_takeaways is an array of at least 4 items,
and stories is an array of at least 3 items each carrying a nonblank headline
and why_it_matters; and when validation rejects a candidate's payload, the
record's highlights column is left untouched while highlights_error is set to
the truncated validation message. -/
theorem claim_C7 :
    (∀ h : Json, exOk (Summarize.validateHighlights h) = true ↔
      (Summarize.requiredNarrativeOk h "one_sentence_summary" = true ∧
       Summarize.requiredNarrativeOk h "what_changed" = true ∧
       Summarize.requiredNarrativeOk h "why_it_matters_now" = true ∧
       Summarize.requiredNarrativeOk h "who_should_care" = true ∧
       Summarize.takeawaysOk h = true ∧ Summarize.storiesOk h = true)) ∧
    (∀ (o : Summarize.SumOracle) (ep : Summarize.Episode) (pay : Json) (msg : String),
      missingHighlights ep.highlights = true →
      o.modelPayload ep.id = Except.ok pay →
      Summarize.validateHighlights pay = Except.error msg →
      ((Summarize.processSumCandidate o ep).1).highlights = ep.highlights ∧
      ((Summarize.processSumCandidate o ep).1).highlights_error = some (strTake msg 800)) := by
  constructor
  · intro h
    rw [Summarize.validateHighlights_ok]
    simp only [Bool.and_eq_true]
    constructor
    · rintro ⟨⟨⟨⟨⟨h1, h2⟩, h3⟩, h4⟩, h5⟩, h6⟩
      exact ⟨h1, h2, h3, h4, h5, h6⟩
    · rintro ⟨h1, h2, h3, h4, h5, h6⟩
      exact ⟨⟨⟨⟨⟨h1, h2⟩, h3⟩, h4⟩, h5⟩, h6⟩
  · intro o ep pay msg hmiss hpay hval
    have houtcome : Summarize.hlOutcome o (Summarize.sourcesPhase o ep).1 =
        Except.error msg := by
      rw [Summarize.hlOutcome_phase]
      unfold Summarize.hlOutcome
      rw [if_pos (by rw [hmiss]), hpay]
      show (match Summarize.validateHighlights pay with
            | Except.error msg => Except.error msg
            | Except.ok hl => Except.ok (some hl)) = Except.error msg
      rw [hval]
    unfold Summarize.processSumCandidate
    rw [houtcome]
    exact ⟨Summarize.sourcesPhase_highlights o ep, rfl⟩

/-- C8: a record whose highlights and sources are both present and nonempty
is untouched by the summarization run, and by a second run on the resulting
store: it stays in the store unchanged and no model, topic or search call is
attributed to it in either run. -/
theorem claim_C8 (o o2 : Summarize.SumOracle) (d d2 : Nat) (b b2 : Option String)
    (store : List Summarize.Episode) (r : Summarize.Episode)
    (hmem : r ∈ store) (hnodup : (store.map (fun e => e.id)).Nodup)
    (hh : missingHighlights r.highlights = false)
    (hs : isEmptySources r.sources = false) :
    r ∈ (Summarize.sumRun o d b store).2.1 ∧
    (∀ ev ∈ (Summarize.sumRun o d b store).2.2, Summarize.eventId ev ≠ r.id) ∧
    r ∈ (Summarize.sumRun o2 d2 b2 (Summarize.sumRun o d b store).2.1).2.1 ∧
    (∀ ev ∈ (Summarize.sumRun o2 d2 b2 (Summarize.sumRun o d b store).2.1).2.2,
      Summarize.eventId ev ≠ r.id) := by
  have h1 := Summarize.sumRun_untouched o d b store r hmem hnodup hh hs
  have hnodup1 : (((Summarize.sumRun o d b store).2.1).map (fun e => e.id)).Nodup := by
    show (((Summarize.sumLoop o (Summarize.batchOf store) store).1).map (fun e => e.id)).Nodup
    rw [Summarize.sumLoop_map_id]
    exact hnodup
  have h2 := Summarize.sumRun_untouched o2 d2 b2 (Summarize.sumRun o d b store).2.1 r
    h1.1 hnodup1 hh hs
  exact ⟨h1.1, h1.2, h2.1, h2.2⟩

/-- C10: a batched candidate with missing sources whose topic extraction
yields nothing and whose every search fails or returns no results still has
an empty sources array persisted, still gets the highlights model call when
highlights are missing, is counted as processed exactly according to the
highlights outcome (the empty retrieval itself never fails the record), and
its updated record still satisfies the candidate condition, so every later
run that sees it selects it again. -/
theorem claim_C10 (o : Summarize.SumOracle) (depth : Nat) (base : Option String)
    (store : List Summarize.Episode) (r : Summarize.Episode)
    (hnodup : (store.map (fun e => e.id)).Nodup)
    (hbatch : r ∈ Summarize.batchOf store)
    (hneed : isEmptySources r.sources = true)
    (htopics : Summarize.extractSearchTopics o (Summarize.transcriptOf r) r.title = [])
    (hsearch : ∀ q n rs, o.search q n = Except.ok rs → rs = []) :
    ((Summarize.processSumCandidate o r).1).sources = Json.arr [] ∧
    Summarize.isCandidate ((Summarize.processSumCandidate o r).1) = true ∧
    (Summarize.processSumCandidate o r).1 ∈ (Summarize.sumRun o depth base store).2.1 ∧
    (missingHighlights r.highlights = true →
      Summarize.CallEvent.modelCall r.id ∈ (Summarize.sumRun o depth base store).2.2) ∧
    (Summarize.processSumCandidate o r).2.1 = exOk (Summarize.hlOutcome o r) := by
  have hsrcList : Summarize.retrievedSources o r = [] := by
    unfold Summarize.retrievedSources
    rw [htopics]
    show Summarize.searchOr o (Summarize.fallbackQuery r) 3 = []
    unfold Summarize.searchOr
    rcases hq : o.search (Summarize.fallbackQuery r) 3 with e | rs
    · rfl
    · exact hsearch _ _ _ hq
  have hphase : ((Summarize.sourcesPhase o r).1).sources = Json.arr [] := by
    unfold Summarize.sourcesPhase
    rw [if_pos hneed, hsrcList]
    rfl
  have hsources : ((Summarize.processSumCandidate o r).1).sources = Json.arr [] := by
    rw [Summarize.processSumCandidate_sources]
    exact hphase
  have hcr := Summarize.batchOf_isCandidate store r hbatch
  have hreal : isRealTranscript r.transcript = true := by
    unfold Summarize.isCandidate at hcr
    rw [Bool.and_eq_true] at hcr
    exact hcr.1
  refine ⟨hsources, ?_, ?_, ?_, ?_⟩
  · unfold Summarize.isCandidate
    rw [Summarize.processSumCandidate_transcript, hreal, hsources]
    simp [isEmptySources]
  · exact Summarize.sumLoop_mem_processed o (Summarize.batchOf store) store r
      (Summarize.batchOf_ids_nodup store hnodup) hbatch
      ⟨r, Summarize.batchOf_sublist_store store r hbatch, rfl⟩
  · intro hmiss
    show Summarize.CallEvent.modelCall r.id ∈
      (Summarize.sumLoop o (Summarize.batchOf store) store).2.2
    rw [Summarize.sumLoop_closed]
    apply List.mem_flatten.mpr
    refine ⟨(Summarize.processSumCandidate o r).2.2, List.mem_map_of_mem _ hbatch, ?_⟩
    have hev : (Summarize.processSumCandidate o r).2.2 =
        (Summarize.sourcesPhase o r).2 ++ Summarize.hlEvents (Summarize.sourcesPhase o r).1 := by
      unfold Summarize.processSumCandidate
      rcases h : Summarize.hlOutcome o (Summarize.sourcesPhase o r).1 with msg | v
      · rfl
      · cases v <;> rfl
    rw [hev]
    apply List.mem_append.mpr
    right
    unfold Summarize.hlEvents
    rw [Summarize.sourcesPhase_highlights, Summarize.sourcesPhase_id, if_pos hmiss]
    exact List.mem_singleton.mpr rfl
  · rw [Summarize.processSumCandidate_flag, Summarize.hlOutcome_phase]

/-! ## Concrete fixtures for witnesses -/

/-- A story object satisfying the per-story validation. -/
def storyFix : Json := Json.obj [("headline", Json.str "h"), ("why_it_matters", Json.str "w")]

/-- A payload satisfying the whole highlights validation. -/
def goodHighlights : Json :=
  Json.obj [("one_sentence_summary", Json.str "s1"), ("what_changed", Json.str "s2"),
    ("why_it_matters_now", Json.str "s3"), ("who_should_care", Json.str "s4"),
    ("top_takeaways", Json.arr [Json.str "t1", Json.str "t2", Json.str "t3", Json.str "t4"]),
    ("stories", Json.arr [storyFix, storyFix, storyFix])]

/-- An oracle whose highlights model call yields an empty object, which fails
validation. -/
def oFixC7 : Summarize.SumOracle :=
  { topicsRaw := fun _ _ => Except.error "x",
    search := fun _ _ => Except.error "x",
    modelPayload := fun _ => Except.ok (Json.obj []) }

/-- A candidate with prior highlights absent and nonempty sources. -/
def epFixC7 : Summarize.Episode :=
  { id := "e1", title := "t", published_at := 0, published_date := "d",
    transcript := some "tr", highlights := Json.null, sources := Json.arr [Json.null],
    highlights_error := none }

theorem claim_C7_witness :
    exOk (Summarize.validateHighlights goodHighlights) = true ∧
    ((Summarize.processSumCandidate oFixC7 epFixC7).1).highlights = epFixC7.highlights ∧
    ((Summarize.processSumCandidate oFixC7 epFixC7).1).highlights_error =
      some (strTake "Missing one_sentence_summary" 800) := by
  have h2 := claim_C7.2 oFixC7 epFixC7 (Json.obj []) "Missing one_sentence_summary"
    rfl rfl rfl
  exact ⟨(claim_C7.1 goodHighlights).mpr (by decide), h2.1, h2.2⟩

/-- A record with nonempty highlights and nonempty sources. -/
def rFixC8 : Summarize.Episode :=
  { id := "e1", title := "t", published_at := 0, published_date := "d",
    transcript := none, highlights := Json.obj [("one_sentence_summary", Json.str "s")],
    sources := Json.arr [Json.null], highlights_error := none }

/-- An oracle all of whose calls fail; no call should happen at all for the
untouched record. -/
def oFixAny : Summarize.SumOracle :=
  { topicsRaw := fun _ _ => Except.error "x",
    search := fun _ _ => Except.error "x",
    modelPayload := fun _ => Except.error "x" }

theorem claim_C8_witness :
    rFixC8 ∈ (Summarize.sumRun oFixAny 0 none [rFixC8]).2.1 ∧
    (∀ ev ∈ (Summarize.sumRun oFixAny 0 none [rFixC8]).2.2,
      Summarize.eventId ev ≠ rFixC8.id) ∧
    rFixC8 ∈ (Summarize.sumRun oFixAny 1 none
      (Summarize.sumRun oFixAny 0 none [rFixC8]).2.1).2.1 ∧
    (∀ ev ∈ (Summarize.sumRun oFixAny 1 none
        (Summarize.sumRun oFixAny 0 none [rFixC8]).2.1).2.2,
      Summarize.eventId ev ≠ rFixC8.id) :=
  claim_C8 oFixAny oFixAny 0 1 none none [rFixC8] rFixC8
    (List.mem_singleton.mpr rfl) (by decide) rfl rfl

/-- A real transcript: 2001 characters. -/
def longTranscript : String := String.mk (List.replicate 2001 'a')

/-- A candidate with a real transcript and both highlights and sources
missing. -/
def rFixC10 : Summarize.Episode :=
  { id := "e2", title := "t", published_at := 0, published_date := "d",
    transcript := some longTranscript, highlights := Json.null, sources := Json.null,
    highlights_error := none }

/-- An oracle with failing topic extraction, failing searches and a failing
highlights model call. -/
def oFixC10 : Summarize.SumOracle :=
  { topicsRaw := fun _ _ => Except.error "no",
    search := fun _ _ => Except.error "down",
    modelPayload := fun _ => Except.error "boom" }

theorem longTranscript_length : longTranscript.length = 2001 := by
  show (List.replicate 2001 'a').length = 2001
  simp

theorem rFixC10_candidate : Summarize.isCandidate rFixC10 = true := by
  have h0 := longTranscript_length
  have h1 : longTranscript ≠ "" := by
    intro h
    rw [h] at h0
    exact absurd h0 (by decide)
  have h2 : longTranscript ≠ "__PROCESSING_TRANSCRIPT__" := by
    intro h
    rw [h] at h0
    exact absurd h0 (by decide)
  have h3 : strStartsWith longTranscript "__ERROR__" = false := by decide
  have hreal : isRealTranscript (some longTranscript) = true := by
    show (if longTranscript = "" then false
      else if longTranscript = "__PROCESSING_TRANSCRIPT__" then false
      else if strStartsWith longTranscript "__ERROR__" = true then false
      else decide (2000 < longTranscript.length)) = true
    rw [if_neg h1, if_neg h2, if_neg (by simp [h3])]
    rw [decide_eq_true_eq, longTranscript_length]
    omega
  show (isRealTranscript (some longTranscript) &&
    (missingHighlights Json.null || isEmptySources Json.null)) = true
  rw [hreal]
  rfl

theorem rFixC10_batch : rFixC10 ∈ Summarize.batchOf [rFixC10] := by
  unfold Summarize.batchOf Summarize.allCandidatesOf Summarize.recentWindow
  have hf : List.filter Summarize.isCandidate [rFixC10] = [rFixC10] := by
    rw [List.filter_cons, if_pos rFixC10_candidate]
    rfl
  rw [show (sortByKeyDesc (fun e : Summarize.Episode => e.published_at) [rFixC10]).take 30 =
    [rFixC10] from rfl]
  rw [hf]
  exact List.mem_singleton.mpr rfl

theorem claim_C10_witness :
    ((Summarize.processSumCandidate oFixC10 rFixC10).1).sources = Json.arr [] ∧
    Summarize.isCandidate ((Summarize.processSumCandidate oFixC10 rFixC10).1) = true ∧
    (Summarize.processSumCandidate oFixC10 rFixC10).1 ∈
      (Summarize.sumRun oFixC10 0 none [rFixC10]).2.1 ∧
    (missingHighlights rFixC10.highlights = true →
      Summarize.CallEvent.modelCall rFixC10.id ∈
        (Summarize.sumRun oFixC10 0 none [rFixC10]).2.2) ∧
    (Summarize.processSumCandidate oFixC10 rFixC10).2.1 =
      exOk (Summarize.hlOutcome oFixC10 rFixC10) :=
  claim_C10 oFixC10 0 none [rFixC10] rFixC10 (by decide) rFixC10_batch
    rfl rfl (fun q n rs h => Except.noConfusion h)

/-! ## The ingestion run -/

namespace Ingest

/-- From the source config of the ingestion function: maximum self-chain
iterations. -/
def MAX_BACKFILL_DEPTH : Nat := 10

/-- From the source config: transcriptions attempted per run. -/
def EPISODES_PER_RUN : Nat := 2

/-- From the source config: RSS items taken per run. -/
def RSS_ITEMS_TO_INGEST : Nat := 15

/-- The columns of an episodes row that the ingestion handler works with. -/
structure IngestEpisode where
  id : String
  title : String
  published_at : Nat
  audio_url : Option String
  transcript : Option String
deriving DecidableEq

/-- The reset query filter: transcript equals the processing sentinel. -/
def isProcessingMarked (r : IngestEpisode) : Bool :=
  match r.transcript with
  | some t => t == "__PROCESSING_TRANSCRIPT__"
  | none => false

/-- The reset query filter for errors: transcript LIKE the error prefix. -/
def isErrorMarked (r : IngestEpisode) : Bool :=
  match r.transcript with
  | some t => strStartsWith t "__ERROR__"
  | none => false

/-- The UPDATE transcript = NULL WHERE id IN ids write. -/
def clearTranscripts (store : List IngestEpisode) (ids : List String) : List IngestEpisode :=
  store.map (fun r => if ids.contains r.id then { r with transcript := none } else r)

/-- The stale-processing reset of a depth-0 run: select up to 50 rows whose
transcript is the processing sentinel and null their transcripts. -/
def resetProcessing (store : List IngestEpisode) : List IngestEpisode :=
  if ((store.filter isProcessingMarked).take 50).isEmpty then store
  else clearTranscripts store (((store.filter isProcessingMarked).take 50).map (fun r => r.id))

/-- The operator-requested error reset: select up to 50 rows whose transcript
carries the error prefix and null their transcripts. -/
def resetErrors (store : List IngestEpisode) : List IngestEpisode :=
  if ((store.filter isErrorMarked).take 50).isEmpty then store
  else clearTranscripts store (((store.filter isErrorMarked).take 50).map (fun r => r.id))

/-- From the source handler: at depth 0, always clear stale processing
markers; clear error markers only when reset_stuck=true; at other depths do
nothing. -/
def ingestResetPhase (depth : Nat) (resetStuck : Bool) (store : List IngestEpisode) :
    List IngestEpisode :=
  if depth = 0 then
    if resetStuck then resetErrors (resetProcessing store) else resetProcessing store
  else store

/-- One row of the upsert with onConflict id: update the metadata columns of
an existing row, or append a new row. -/
def upsertOne (st : List IngestEpisode) (row : IngestEpisode) : List IngestEpisode :=
  if st.any (fun r => r.id == row.id) then
    st.map (fun r =>
      if r.id == row.id then
        { r with title := row.title, published_at := row.published_at,
                 audio_url := row.audio_url }
      else r)
  else st ++ [row]

/-- The RSS metadata upsert: rows already cleaned from the feed (the RSS
fetch, parse and field validation are external input here). Transcripts of
existing rows are untouched. -/
def upsertMeta (store rows : List IngestEpisode) : List IngestEpisode :=
  rows.foldl upsertOne store

/-- Oracle for the transcription service: transcribeInChunks keyed by the
audio url; an Except.error value is a thrown exception. -/
structure IngestOracle where
  transcribe : String → Except String String

/-- One iteration of the transcription loop: a row without audio_url is
skipped with no write; otherwise the row is marked with the processing
sentinel and then, within the same iteration, overwritten with the
transcription result, or with the error sentinel carrying the message cut to
500 characters. The returned row is the iteration's net write. -/
def processIngestRow (o : IngestOracle) (row : IngestEpisode) : Option IngestEpisode :=
  match row.audio_url with
  | none => none
  | some url =>
    match o.transcribe url with
    | Except.ok t => some { row with transcript := some t }
    | Except.error msg =>
      some { row with transcript := some ("__ERROR__: " ++ strTake msg 500) }

/-- The transcription loop: every snapshot row is attempted; one row's
failure is persisted to its own transcript and never stops the loop. -/
def ingestLoop (o : IngestOracle) : List IngestEpisode → List IngestEpisode → List IngestEpisode
  | [], store => store
  | row :: rest, store =>
    ingestLoop o rest
      (match processIngestRow o row with
       | some r2 => updateByKey (fun e => e.id) store r2
       | none => store)

/-- The candidate query window: the 30 most recently published rows. -/
def ingestWindow (store : List IngestEpisode) : List IngestEpisode :=
  (sortByKeyDesc (fun e => e.published_at) store).take 30

/-- The transcription candidates: window rows without a real transcript. -/
def ingestCandidatesOf (store : List IngestEpisode) : List IngestEpisode :=
  (ingestWindow store).filter (fun r => needsTranscription r.transcript)

/-- The rows transcribed this run: the first EPISODES_PER_RUN candidates. -/
def toProcessOf (store : List IngestEpisode) : List IngestEpisode :=
  (ingestCandidatesOf store).take EPISODES_PER_RUN

/-- The store after the depth-0 resets and the RSS metadata upsert. -/
def storeAfterFeed (feed : List IngestEpisode) (depth : Nat) (resetStuck : Bool)
    (store : List IngestEpisode) : List IngestEpisode :=
  upsertMeta (ingestResetPhase depth resetStuck store) (feed.take RSS_ITEMS_TO_INGEST)

/-- The JSON body of the 200 response of the ingestion handler, plus the
chain decision; chain_next_depth is the depth of the fire-and-forget
continuation, if one was issued. -/
structure IngestResponse where
  statusCode : Nat
  depth : Nat
  ingested_count : Nat
  transcribed_this_run : Nat
  remaining_candidates : Nat
  chain_triggered : Bool
  chain_next_depth : Option Nat
deriving DecidableEq

/-- The whole ingestion run: reset phase, metadata upsert, transcription of
the batch, chain decision. Returns the response and the final store. -/
def ingestRun (o : IngestOracle) (feed : List IngestEpisode) (depth : Nat) (resetStuck : Bool)
    (base : Option String) (store : List IngestEpisode) :
    IngestResponse × List IngestEpisode :=
  ({ statusCode := 200, depth := depth,
     ingested_count := (feed.take RSS_ITEMS_TO_INGEST).length,
     transcribed_this_run := (toProcessOf (storeAfterFeed feed depth resetStuck store)).length,
     remaining_candidates :=
       (chainControl MAX_BACKFILL_DEPTH
         (ingestCandidatesOf (storeAfterFeed feed depth resetStuck store)).length
         (toProcessOf (storeAfterFeed feed depth resetStuck store)).length depth base).remaining,
     chain_triggered :=
       (chainControl MAX_BACKFILL_DEPTH
         (ingestCandidatesOf (storeAfterFeed feed depth resetStuck store)).length
         (toProcessOf (storeAfterFeed feed depth resetStuck store)).length depth base).fired.isSome,
     chain_next_depth :=
       (chainControl MAX_BACKFILL_DEPTH
         (ingestCandidatesOf (storeAfterFeed feed depth resetStuck store)).length
         (toProcessOf (storeAfterFeed feed depth resetStuck store)).length depth base).fired },
   ingestLoop o (toProcessOf (storeAfterFeed feed depth resetStuck store))
     (storeAfterFeed feed depth resetStuck store))

end Ingest

namespace Ingest

theorem mem_resetProcessing_cleared (store : List IngestEpisode) (r : IngestEpisode)
    (hmem : r ∈ store) (hfirst50 : r ∈ (store.filter isProcessingMarked).take 50) :
    ({ r with transcript := none } : IngestEpisode) ∈ resetProcessing store := by
  unfold resetProcessing
  split
  · exfalso
    rename_i hempty
    rw [List.isEmpty_iff] at hempty
    rw [hempty] at hfirst50
    simp at hfirst50
  · apply List.mem_map.mpr
    refine ⟨r, hmem, ?_⟩
    rw [if_pos]
    apply List.elem_iff.mpr
    exact List.mem_map_of_mem _ hfirst50

theorem transcript_none_update (x : IngestEpisode) (hnone : x.transcript = none) :
    ({ x with transcript := none } : IngestEpisode) = x := by
  obtain ⟨i, t, p, a, tr⟩ := x
  simp at hnone
  rw [hnone]

theorem mem_resetErrors_of_none (s1 : List IngestEpisode) (x : IngestEpisode)
    (hx : x ∈ s1) (hnone : x.transcript = none) : x ∈ resetErrors s1 := by
  unfold resetErrors
  split
  · exact hx
  · apply List.mem_map.mpr
    refine ⟨x, hx, ?_⟩
    split
    · exact transcript_none_update x hnone
    · rfl

theorem not_processing_of_error (e : IngestEpisode) (herr : isErrorMarked e = true) :
    isProcessingMarked e = false := by
  unfold isErrorMarked at herr
  unfold isProcessingMarked
  rcases ht : e.transcript with _ | t
  · rfl
  · rw [ht] at herr
    by_cases hb : (t == "__PROCESSING_TRANSCRIPT__") = true
    · have : t = "__PROCESSING_TRANSCRIPT__" := by
        exact eq_of_beq hb
      rw [this] at herr
      exact absurd herr (by decide)
    · simpa using hb

theorem mem_resetProcessing_unmarked (store : List IngestEpisode) (e : IngestEpisode)
    (hnodup : (store.map (fun x => x.id)).Nodup) (hmem : e ∈ store)
    (hnm : isProcessingMarked e = false) : e ∈ resetProcessing store := by
  unfold resetProcessing
  split
  · exact hmem
  · apply List.mem_map.mpr
    refine ⟨e, hmem, ?_⟩
    rw [if_neg]
    intro hc
    have hidmem := List.elem_iff.mp hc
    obtain ⟨x, hx, hxid⟩ := List.mem_map.mp hidmem
    have hxfilter := (List.take_sublist 50 _).mem hx
    have hxstore := (List.filter_sublist _).mem hxfilter
    have hxe : x = e := eq_of_nodup_key (fun x => x.id) hnodup hxstore hmem hxid
    have hxmark := (List.mem_filter.mp hxfilter).2
    rw [hxe, hnm] at hxmark
    exact Bool.false_ne_true hxmark

end Ingest

/-- C5 counterexample: a depth-0 run over a store of 51 records all stuck in
the processing sentinel resets only the 50 matched by the limited reset
query; the 51st record keeps the sentinel and is not reset in that run. -/
theorem claim_C5_counterexample :
    ((List.range 51).map (fun i =>
        ({ id := Nat.repr i, title := "t", published_at := i, audio_url := none,
           transcript := some "__PROCESSING_TRANSCRIPT__" } : Ingest.IngestEpisode))).map
      (fun r => Ingest.isProcessingMarked r) = List.replicate 51 true ∧
    ((Ingest.ingestResetPhase 0 false
      ((List.range 51).map (fun i =>
        ({ id := Nat.repr i, title := "t", published_at := i, audio_url := none,
           transcript := some "__PROCESSING_TRANSCRIPT__" } : Ingest.IngestEpisode)))).map
      (fun r => Ingest.isProcessingMarked r)) = List.replicate 50 false ++ [true] := by
  constructor
  · decide
  · decide

/-- C5, amended by the counterexample: at depth 0, each processing-sentinel
record among the rows matched by the limited reset query (the first 50) is
reset to an absent transcript; such a reset record is a transcription
candidate of the same run whenever it lies in the 30-row candidate window at
selection time; and, wherever the store's ids are unique, error-sentinel
records pass the reset phase of a run without reset_stuck untouched, at any
depth. -/
theorem claim_C5 (resetStuck : Bool) (store : List Ingest.IngestEpisode)
    (r : Ingest.IngestEpisode)
    (hmem : r ∈ store)
    (hfirst50 : r ∈ (store.filter Ingest.isProcessingMarked).take 50) :
    ({ r with transcript := none } : Ingest.IngestEpisode) ∈
      Ingest.ingestResetPhase 0 resetStuck store ∧
    (∀ feed, ({ r with transcript := none } : Ingest.IngestEpisode) ∈
        Ingest.ingestWindow (Ingest.storeAfterFeed feed 0 resetStuck store) →
      ({ r with transcript := none } : Ingest.IngestEpisode) ∈
        Ingest.ingestCandidatesOf (Ingest.storeAfterFeed feed 0 resetStuck store)) ∧
    (∀ (depth : Nat) (store2 : List Ingest.IngestEpisode) (e : Ingest.IngestEpisode),
      (store2.map (fun x => x.id)).Nodup → e ∈ store2 → Ingest.isErrorMarked e = true →
      e ∈ Ingest.ingestResetPhase depth false store2) := by
  refine ⟨?_, ?_, ?_⟩
  · unfold Ingest.ingestResetPhase
    rw [if_pos rfl]
    cases resetStuck with
    | false =>
      show _ ∈ Ingest.resetProcessing store
      exact Ingest.mem_resetProcessing_cleared store r hmem hfirst50
    | true =>
      show _ ∈ Ingest.resetErrors (Ingest.resetProcessing store)
      exact Ingest.mem_resetErrors_of_none _ _
        (Ingest.mem_resetProcessing_cleared store r hmem hfirst50) rfl
  · intro feed hwin
    exact List.mem_filter.mpr ⟨hwin, rfl⟩
  · intro depth store2 e hnodup2 hmem2 herr
    unfold Ingest.ingestResetPhase
    by_cases hd : depth = 0
    · rw [if_pos hd]
      show e ∈ Ingest.resetProcessing store2
      exact Ingest.mem_resetProcessing_unmarked store2 e hnodup2 hmem2
        (Ingest.not_processing_of_error e herr)
    · rw [if_neg hd]
      exact hmem2

/-- A record stuck in the processing sentinel. -/
def pRecC5 : Ingest.IngestEpisode :=
  { id := "p", title := "t", published_at := 5, audio_url := none,
    transcript := some "__PROCESSING_TRANSCRIPT__" }

/-- A record stuck in the error sentinel. -/
def eRecC5 : Ingest.IngestEpisode :=
  { id := "q", title := "t", published_at := 3, audio_url := none,
    transcript := some "__ERROR__: boom" }

/-- A store with one processing-stuck and one error-stuck record. -/
def storeC5 : List Ingest.IngestEpisode := [pRecC5, eRecC5]

theorem claim_C5_witness :
    ({ pRecC5 with transcript := none } : Ingest.IngestEpisode) ∈
      Ingest.ingestResetPhase 0 false storeC5 ∧
    ({ pRecC5 with transcript := none } : Ingest.IngestEpisode) ∈
      Ingest.ingestCandidatesOf (Ingest.storeAfterFeed [] 0 false storeC5) ∧
    eRecC5 ∈ Ingest.ingestResetPhase 0 false [eRecC5] := by
  have h := claim_C5 false storeC5 pRecC5 (List.mem_cons_self _ _) (by decide)
  exact ⟨h.1, h.2.1 [] (by decide),
    h.2.2 0 [eRecC5] eRecC5 (by decide) (List.mem_singleton.mpr rfl) (by decide)⟩

/-- C2: over a backlog of C candidates with per-run batch size B (positive),
the chain issues min(ceil(C/B) - 1, MAX_DEPTH) continuations, and whenever
ceil(C/B) - 1 exceeds MAX_DEPTH the final run reports a positive remaining
count. ceil(C/B) is written (C + B - 1) / B. -/
theorem claim_C2 (B maxDepth C : Nat) (hB : 0 < B) :
    (chainRuns maxDepth B C 0).1 = min ((C + B - 1) / B - 1) maxDepth ∧
    (maxDepth < (C + B - 1) / B - 1 → 0 < (chainRuns maxDepth B C 0).2) := by
  constructor
  · exact chainRuns_continuations B maxDepth hB maxDepth C 0 (Nat.sub_zero maxDepth)
  · intro h
    exact chainRuns_remaining_pos B maxDepth hB maxDepth C 0 (Nat.sub_zero maxDepth)
      (by rw [Nat.sub_zero]; exact h)

theorem claim_C2_witness :
    (chainRuns 15 2 37 0).1 = min ((37 + 2 - 1) / 2 - 1) 15 ∧
    (15 < (37 + 2 - 1) / 2 - 1 → 0 < (chainRuns 15 2 37 0).2) :=
  claim_C2 2 15 37 (by decide)

/-- C1: for both background jobs, with a base URL configured, the run reports
remaining = total candidates - batch taken; when remaining is positive and
the depth is below the job's maximum a continuation at depth+1 is issued
(fire-and-forget: the 200 response is produced regardless); when remaining is
positive at exhausted depth no continuation is issued and the remaining count
is still reported; when remaining is zero no continuation is issued. -/
theorem claim_C1 (b : String) (depth : Nat)
    (o : Summarize.SumOracle) (store : List Summarize.Episode)
    (oi : Ingest.IngestOracle) (feed istore : List Ingest.IngestEpisode) (resetStuck : Bool) :
    ((Summarize.sumRun o depth (some b) store).1.statusCode = 200 ∧
     (Summarize.sumRun o depth (some b) store).1.remaining_candidates =
        (Summarize.allCandidatesOf store).length - (Summarize.batchOf store).length ∧
     (0 < (Summarize.sumRun o depth (some b) store).1.remaining_candidates →
        depth < Summarize.MAX_BACKFILL_DEPTH →
        (Summarize.sumRun o depth (some b) store).1.chain_triggered = true ∧
        (Summarize.sumRun o depth (some b) store).1.chain_next_depth = some (depth + 1)) ∧
     (0 < (Summarize.sumRun o depth (some b) store).1.remaining_candidates →
        Summarize.MAX_BACKFILL_DEPTH ≤ depth →
        (Summarize.sumRun o depth (some b) store).1.chain_next_depth = none) ∧
     ((Summarize.sumRun o depth (some b) store).1.remaining_candidates = 0 →
        (Summarize.sumRun o depth (some b) store).1.chain_next_depth = none)) ∧
    ((Ingest.ingestRun oi feed depth resetStuck (some b) istore).1.statusCode = 200 ∧
     (Ingest.ingestRun oi feed depth resetStuck (some b) istore).1.remaining_candidates =
        (Ingest.ingestCandidatesOf (Ingest.storeAfterFeed feed depth resetStuck istore)).length -
        (Ingest.toProcessOf (Ingest.storeAfterFeed feed depth resetStuck istore)).length ∧
     (0 < (Ingest.ingestRun oi feed depth resetStuck (some b) istore).1.remaining_candidates →
        depth < Ingest.MAX_BACKFILL_DEPTH →
        (Ingest.ingestRun oi feed depth resetStuck (some b) istore).1.chain_triggered = true ∧
        (Ingest.ingestRun oi feed depth resetStuck (some b) istore).1.chain_next_depth =
          some (depth + 1)) ∧
     (0 < (Ingest.ingestRun oi feed depth resetStuck (some b) istore).1.remaining_candidates →
        Ingest.MAX_BACKFILL_DEPTH ≤ depth →
        (Ingest.ingestRun oi feed depth resetStuck (some b) istore).1.chain_next_depth = none) ∧
     ((Ingest.ingestRun oi feed depth resetStuck (some b) istore).1.remaining_candidates = 0 →
        (Ingest.ingestRun oi feed depth resetStuck (some b) istore).1.chain_next_depth = none)) := by
  have hsum_rem : (Summarize.sumRun o depth (some b) store).1.remaining_candidates =
      (Summarize.allCandidatesOf store).length - (Summarize.batchOf store).length :=
    chainControl_remaining _ _ _ _ _
  have hing_rem : (Ingest.ingestRun oi feed depth resetStuck (some b) istore).1.remaining_candidates =
      (Ingest.ingestCandidatesOf (Ingest.storeAfterFeed feed depth resetStuck istore)).length -
      (Ingest.toProcessOf (Ingest.storeAfterFeed feed depth resetStuck istore)).length :=
    chainControl_remaining _ _ _ _ _
  refine ⟨⟨rfl, hsum_rem, ?_, ?_, ?_⟩, ⟨rfl, hing_rem, ?_, ?_, ?_⟩⟩
  · intro hrem hdep
    rw [hsum_rem] at hrem
    constructor
    · show (chainControl Summarize.MAX_BACKFILL_DEPTH (Summarize.allCandidatesOf store).length
        (Summarize.batchOf store).length depth (some b)).fired.isSome = true
      rw [chainControl_fired_pos _ _ _ _ b hrem hdep]
      rfl
    · exact chainControl_fired_pos _ _ _ _ b hrem hdep
  · intro hrem hdep
    exact chainControl_fired_exhausted _ _ _ _ _ hdep
  · intro hrem
    rw [hsum_rem] at hrem
    exact chainControl_fired_done _ _ _ _ _ hrem
  · intro hrem hdep
    rw [hing_rem] at hrem
    constructor
    · show (chainControl Ingest.MAX_BACKFILL_DEPTH
        (Ingest.ingestCandidatesOf (Ingest.storeAfterFeed feed depth resetStuck istore)).length
        (Ingest.toProcessOf (Ingest.storeAfterFeed feed depth resetStuck istore)).length
        depth (some b)).fired.isSome = true
      rw [chainControl_fired_pos _ _ _ _ b hrem hdep]
      rfl
    · exact chainControl_fired_pos _ _ _ _ b hrem hdep
  · intro hrem hdep
    exact chainControl_fired_exhausted _ _ _ _ _ hdep
  · intro hrem
    rw [hing_rem] at hrem
    exact chainControl_fired_done _ _ _ _ _ hrem

namespace Ingest

/-- The transcription loop is a fold of per-row, store-independent steps. -/
theorem ingestLoop_closed (o : IngestOracle) :
    ∀ (batch store : List IngestEpisode),
      ingestLoop o batch store = batch.foldl (fun st row =>
        match processIngestRow o row with
        | some r2 => updateByKey (fun e => e.id) st r2
        | none => st) store := by
  intro batch
  induction batch with
  | nil => intro store; rfl
  | cons row rest ih =>
    intro store
    unfold ingestLoop
    rw [ih]
    rfl

end Ingest

/-- C6: per-candidate failures are isolated in both jobs. The summarize batch
loop is a fold of independent per-candidate steps (every candidate is
attempted whatever happened before it); a failed summarization persists the
message cut to 800 characters in highlights_error and only marks that record
unprocessed; the run's status and chain decision do not depend on the
external-call outcomes at all. The ingest loop is likewise a fold; a failed
transcription persists the error sentinel with the message cut to 500
characters (at most 511 characters in total); and the whole ingest response
is oracle-independent. -/
theorem claim_C6 (o o2 : Summarize.SumOracle) (oi oi2 : Ingest.IngestOracle) :
    (∀ (batch store : List Summarize.Episode),
      Summarize.sumLoop o batch store =
        (batch.foldl (fun st ep => updateByKey (fun e => e.id) st
          (Summarize.processSumCandidate o ep).1) store,
         (batch.map (fun ep => if (Summarize.processSumCandidate o ep).2.1 then 1 else 0)).sum,
         (batch.map (fun ep => (Summarize.processSumCandidate o ep).2.2)).flatten)) ∧
    (∀ (ep : Summarize.Episode) (msg : String),
      Summarize.hlOutcome o (Summarize.sourcesPhase o ep).1 = Except.error msg →
      ((Summarize.processSumCandidate o ep).1).highlights_error = some (strTake msg 800) ∧
      (strTake msg 800).length ≤ 800 ∧
      (Summarize.processSumCandidate o ep).2.1 = false) ∧
    (∀ (depth : Nat) (base : Option String) (store : List Summarize.Episode),
      (Summarize.sumRun o depth base store).1.statusCode = 200 ∧
      (Summarize.sumRun o depth base store).1.remaining_candidates =
        (Summarize.sumRun o2 depth base store).1.remaining_candidates ∧
      (Summarize.sumRun o depth base store).1.chain_triggered =
        (Summarize.sumRun o2 depth base store).1.chain_triggered ∧
      (Summarize.sumRun o depth base store).1.chain_next_depth =
        (Summarize.sumRun o2 depth base store).1.chain_next_depth) ∧
    (∀ (row : Ingest.IngestEpisode) (url : String) (msg : String),
      row.audio_url = some url → oi.transcribe url = Except.error msg →
      Ingest.processIngestRow oi row =
        some { row with transcript := some ("__ERROR__: " ++ strTake msg 500) } ∧
      ("__ERROR__: " ++ strTake msg 500).length ≤ 511) ∧
    (∀ (batch store : List Ingest.IngestEpisode),
      Ingest.ingestLoop oi batch store = batch.foldl (fun st row =>
        match Ingest.processIngestRow oi row with
        | some r2 => updateByKey (fun e => e.id) st r2
        | none => st) store) ∧
    (∀ (feed : List Ingest.IngestEpisode) (depth : Nat) (resetStuck : Bool)
        (base : Option String) (store : List Ingest.IngestEpisode),
      (Ingest.ingestRun oi feed depth resetStuck base store).1.statusCode = 200 ∧
      (Ingest.ingestRun oi feed depth resetStuck base store).1 =
        (Ingest.ingestRun oi2 feed depth resetStuck base store).1) := by
  refine ⟨Summarize.sumLoop_closed o, ?_, ?_, ?_, Ingest.ingestLoop_closed oi, ?_⟩
  · intro ep msg hout
    unfold Summarize.processSumCandidate
    rw [hout]
    exact ⟨rfl, strTake_length_le msg 800, rfl⟩
  · intro depth base store
    exact ⟨rfl, rfl, rfl, rfl⟩
  · intro row url msg haud htr
    constructor
    · simp only [Ingest.processIngestRow, haud, htr]
    · show (("__ERROR__: ").data ++ (strTake msg 500).data).length ≤ 511
      rw [List.length_append]
      have h1 : (strTake msg 500).data.length ≤ 500 := strTake_length_le msg 500
      have h2 : ("__ERROR__: ").data.length = 11 := by decide
      rw [h2]
      omega
  · intro feed depth resetStuck base store
    exact ⟨rfl, rfl⟩

/-- A transcription oracle that always fails. -/
def iFix : Ingest.IngestOracle := { transcribe := fun _ => Except.error "x" }

/-- A transcription oracle that always succeeds. -/
def iFix2 : Ingest.IngestOracle := { transcribe := fun _ => Except.ok "t" }

/-- A row with an audio url and no transcript. -/
def rowC6 : Ingest.IngestEpisode :=
  { id := "r", title := "t", published_at := 0, audio_url := some "u", transcript := none }

/-- Three transcription candidates: more than one batch of work. -/
def storeC1 : List Ingest.IngestEpisode :=
  [{ id := "a", title := "t", published_at := 3, audio_url := none, transcript := none },
   { id := "b", title := "t", published_at := 2, audio_url := none, transcript := none },
   { id := "c", title := "t", published_at := 1, audio_url := none, transcript := none }]

theorem claim_C1_witness :
    (Summarize.sumRun oFixAny 0 (some "https://x") []).1.remaining_candidates = 0 ∧
    (Summarize.sumRun oFixAny 0 (some "https://x") []).1.chain_next_depth = none ∧
    (Ingest.ingestRun iFix [] 0 false (some "https://x") storeC1).1.remaining_candidates = 1 ∧
    (Ingest.ingestRun iFix [] 0 false (some "https://x") storeC1).1.chain_triggered = true ∧
    (Ingest.ingestRun iFix [] 0 false (some "https://x") storeC1).1.chain_next_depth = some 1 := by
  have h := claim_C1 "https://x" 0 oFixAny [] iFix [] storeC1 false
  have hrem0 : (Summarize.sumRun oFixAny 0 (some "https://x") []).1.remaining_candidates = 0 := by
    rw [h.1.2.1]
    rfl
  have hrem1 : (Ingest.ingestRun iFix [] 0 false
      (some "https://x") storeC1).1.remaining_candidates = 1 := by
    rw [h.2.2.1]
    decide
  have hpos := h.2.2.2.1 (by rw [hrem1]; decide) (by decide)
  exact ⟨hrem0, h.1.2.2.2.2 hrem0, hrem1, hpos.1, hpos.2⟩

theorem claim_C6_witness :
    Summarize.sumLoop oFixAny [] [] =
      (([] : List Summarize.Episode).foldl (fun st ep => updateByKey (fun e => e.id) st
          (Summarize.processSumCandidate oFixAny ep).1) [],
       (([] : List Summarize.Episode).map
          (fun ep => if (Summarize.processSumCandidate oFixAny ep).2.1 then 1 else 0)).sum,
       (([] : List Summarize.Episode).map
          (fun ep => (Summarize.processSumCandidate oFixAny ep).2.2)).flatten) ∧
    ((Summarize.processSumCandidate oFixAny epFixC7).1).highlights_error =
      some (strTake "x" 800) ∧
    (Summarize.sumRun oFixAny 0 none []).1.statusCode = 200 ∧
    Ingest.processIngestRow iFix rowC6 =
      some { rowC6 with transcript := some ("__ERROR__: " ++ strTake "x" 500) } ∧
    (Ingest.ingestRun iFix [] 0 false none []).1 =
      (Ingest.ingestRun iFix2 [] 0 false none []).1 := by
  have h := claim_C6 oFixAny oFixAny iFix iFix2
  exact ⟨h.1 [] [], (h.2.1 epFixC7 "x" rfl).1, (h.2.2.1 0 none []).1,
    (h.2.2.2.1 rowC6 "u" "x" rfl rfl).1, (h.2.2.2.2.2 [] 0 false none []).2⟩
